import Mathlib

/-!
# FrogGame authoritative server — shallow embedding

A shallow embedding of the WebSocket game server of the FrogGame
repository (the `ws`-based server source: in-memory `players` map, palette
colour assignment, MySQL-backed high-score persistence, and the message
handlers `player:join`, `food:eat`, `player:update`, `player:hit`,
`player:attack`, `player:respawn`, plus connection open/close).

JavaScript numbers are modelled as exact rationals extended with the
special values `NaN`, `Infinity` and `-Infinity`; all arithmetic the
server performs (score/health deltas, spawn-point computation) is exact on
these.  Health and score are server-controlled integers, so they are
embedded as `Int` (every stored player has them set, hence the JS
`?? 5` / `?? 0` fallbacks on those fields never fire).  The `players` JS
`Map` is an association list with `Map.set` / `Map.get` / `Map.delete`
semantics.  The MySQL pool is `Option ScoreTable`: `none` models the
unconfigured-or-unavailable store, `some t` a reachable table keyed by
nickname.
-/

namespace FrogGame

/-- A JavaScript number: a finite value (exact rational) or one of the
special values `NaN`, `Infinity`, `-Infinity`. -/
inductive JNum where
  | fin (q : ℚ)
  | nan
  | inf
  | ninf
deriving DecidableEq, Repr

/-- A JavaScript value as it can appear in a parsed JSON payload field
(plus `undefined` for an absent field).  Only the shapes the server
inspects are distinguished. -/
inductive JSVal where
  | undef
  | null
  | num (n : JNum)
  | str (s : String)
  | boolv (b : Bool)
deriving DecidableEq, Repr

/-- Decimal-digit accumulation over a character list; `none` as soon as a
non-digit appears. -/
def parseNatCore : List Char → Nat → Option Nat
  | [], acc => some acc
  | c :: rest, acc =>
      if c.isDigit then parseNatCore rest (acc * 10 + (c.toNat - 48)) else none

/-- Integer-literal parsing of a nonempty string (optional leading minus
sign followed by decimal digits). -/
def parseIntStr (s : String) : Option Int :=
  match s.toList with
  | [] => none
  | '-' :: rest =>
      if rest.isEmpty then none
      else (parseNatCore rest 0).map (fun n => -(n : Int))
  | l => (parseNatCore l 0).map (fun n => (n : Int))

/-- `Number(s)` for a string `s`, modelled for the empty string and
integer literals; every other string coerces to `NaN` (as non-numeric
strings such as `"abc"` do in JavaScript). -/
def strToNum (s : String) : JNum :=
  if s = "" then .fin 0
  else
    match parseIntStr s with
    | some n => .fin (n : ℚ)
    | none => .nan

/-- The JavaScript `Number(v)` coercion. -/
def toNumber : JSVal → JNum
  | .undef => .nan
  | .null => .fin 0
  | .num n => n
  | .str s => strToNum s
  | .boolv b => .fin (if b then 1 else 0)

/-- The JavaScript `v ?? d` nullish-coalescing operator. -/
def nullish (v d : JSVal) : JSVal :=
  match v with
  | .undef => d
  | .null => d
  | _ => v

/-- JavaScript truthiness. -/
def truthy : JSVal → Bool
  | .undef => false
  | .null => false
  | .num (.fin q) => decide (q ≠ 0)
  | .num .nan => false
  | .num .inf => true
  | .num .ninf => true
  | .str s => decide (s ≠ "")
  | .boolv b => b

/-- The JavaScript `v || d` operator. -/
def jsOr (v d : JSVal) : JSVal := if truthy v then v else d

/-- Rendering of a `JNum` by `String(...)` (finite values rendered as
their decimal form, abstracted here by `toString` on the rational). -/
def numToString : JNum → String
  | .fin q => toString q
  | .nan => "NaN"
  | .inf => "Infinity"
  | .ninf => "-Infinity"

/-- The JavaScript `String(v)` coercion. -/
def jsToString : JSVal → String
  | .undef => "undefined"
  | .null => "null"
  | .num n => numToString n
  | .str s => s
  | .boolv b => if b then "true" else "false"

/-- `typeof v === "number"`. -/
def isNumberVal : JSVal → Bool
  | .num _ => true
  | _ => false

/-- `typeof v === "number" && Number.isFinite(v)`. -/
def isFiniteNumberVal : JSVal → Bool
  | .num (.fin _) => true
  | _ => false

/-- Life stage of a player: `"tadpole"` or `"frog"`. -/
inductive Stage where
  | tadpole
  | frog
deriving DecidableEq, Repr

/-- A player record, exactly the fields the server stores in the
`players` map: `{ x, y, stage, color, hp, score, nickname }`. -/
structure Player where
  x : JNum
  y : JNum
  stage : Stage
  color : Nat
  hp : Int
  score : Int
  nickname : String
deriving DecidableEq, Repr

/-- The in-memory player store: a JS `Map` keyed by session id. -/
abbrev PlayerMap := List (String × Player)

/-- `players.get id`. -/
def getPlayer : PlayerMap → String → Option Player
  | [], _ => none
  | e :: rest, id => if e.1 = id then some e.2 else getPlayer rest id

/-- `players.set id p`: replaces the entry when the key exists (keeping
insertion order), otherwise appends. -/
def setPlayer (ps : PlayerMap) (id : String) (p : Player) : PlayerMap :=
  if ps.any (fun e => decide (e.1 = id)) then
    ps.map (fun e => if e.1 = id then (id, p) else e)
  else ps ++ [(id, p)]

/-- `players.delete id`. -/
def delPlayer : PlayerMap → String → PlayerMap
  | [], _ => []
  | e :: rest, id => if e.1 = id then delPlayer rest id else e :: delPlayer rest id

/-- The colour palette, in source order. -/
def palette : List Nat :=
  [0xff6b6b, 0x4ecdc4, 0xffe66d, 0x5dade2, 0xa569bd, 0xf5b7b1, 0x48c9b0, 0xf8c471]

/-- `palette[colorIndex % palette.length]`. -/
def nextColor (i : Nat) : Nat := palette.getD (i % palette.length) 0

/-- The persisted `scores` table: nickname (primary key) to best score. -/
abbrev ScoreTable := List (String × Int)

/-- The MySQL upsert `INSERT ... ON DUPLICATE KEY UPDATE best_score =
GREATEST(best_score, VALUES(best_score))`. -/
def upsertMax (t : ScoreTable) (k : String) (v : Int) : ScoreTable :=
  if t.any (fun e => decide (e.1 = k)) then
    t.map (fun e => if e.1 = k then (e.1, max e.2 v) else e)
  else t ++ [(k, v)]

/-- `recordHighScore(nickname, score)`: a skip when the pool is
unconfigured or unavailable (`none`); otherwise the GREATEST-upsert under
`String(nickname || "Player").slice(0, 64)`.  The `typeof score !==
"number" || Number.isNaN(score)` guard is vacuous here because stored
scores are integers. -/
def recordHighScore (db : Option ScoreTable) (nickname : String) (score : Int) :
    Option ScoreTable :=
  match db with
  | none => none
  | some t =>
      let safeNickname := (if nickname = "" then "Player" else nickname).take 64
      some (upsertMax t safeNickname score)

/-- `getOverallRank(score)`: `null` when the pool is unconfigured or
unavailable; otherwise `COUNT(*) WHERE best_score > score`, plus one. -/
def getOverallRank (db : Option ScoreTable) (score : Int) : Option Nat :=
  match db with
  | none => none
  | some t => some ((t.filter (fun e => decide (score < e.2))).length + 1)

/-- Recipient designation of an outbound event: unicast, broadcast to all
but one connection, or broadcast to all. -/
inductive Recipients where
  | one (id : String)
  | allExcept (id : String)
  | all
deriving DecidableEq, Repr

/-- The connections actually reached, given the list of open connections
(`broadcast` skips sockets that are not open; the unicast paths send only
when the target socket is found open). -/
def deliverTo (conns : List String) : Recipients → List String
  | .one id => if id ∈ conns then [id] else []
  | .allExcept id => conns.filter (fun c => decide (c ≠ id))
  | .all => conns

/-- Outbound server events, with exactly the payload fields serialized by
the source. -/
inductive ServerEvent where
  | updated (id : String) (x y : JNum) (stage : Stage) (hp score : Int) (color : Nat)
  | joined (id : String) (p : Player)
  | attackRelay (id : String) (heading : JSVal)
  | died (score : Int) (mapRank : Nat) (overallRank : Option Nat)
  | leftGame (id : String)
deriving DecidableEq, Repr

/-- The `player:updated` payload built from a stored player record. -/
def updatedEv (id : String) (p : Player) : ServerEvent :=
  .updated id p.x p.y p.stage p.hp p.score p.color

/-- A list of emitted events paired with their recipients. -/
abbrev Emitted := List (ServerEvent × Recipients)

/-- The full server state: player store, round-robin colour counter, open
connections, and the (optional) persistence pool. -/
structure ServerState where
  players : PlayerMap
  colorIndex : Nat
  conns : List String
  db : Option ScoreTable
deriving DecidableEq, Repr

/-- Payload of a `player:join` intent; an absent field is `undef`. -/
structure JoinPayload where
  x : JSVal
  y : JSVal
  stage : JSVal
  nickname : JSVal
deriving DecidableEq, Repr

/-- Payload of a `player:update` intent. -/
structure UpdatePayload where
  x : JSVal
  y : JSVal
  stage : JSVal
deriving DecidableEq, Repr

/-- Payload of a `player:respawn` intent. -/
structure RespawnPayload where
  x : JSVal
  y : JSVal
deriving DecidableEq, Repr

/-- A decoded client intent; `other` stands for any recognized-JSON frame
whose `type` is not one of the handled kinds. -/
inductive ClientMsg where
  | join (p : JoinPayload)
  | update (p : UpdatePayload)
  | eat
  | hit (targetId : JSVal)
  | attack (heading : JSVal)
  | respawn (p : RespawnPayload)
  | other
deriving DecidableEq, Repr

/-- The fresh player record built by the `player:join` handler. -/
def joinPlayer (colorIndex : Nat) (pl : JoinPayload) : Player :=
  { x := toNumber (nullish pl.x (.num (.fin 240)))
    y := toNumber (nullish pl.y (.num (.fin 320)))
    stage := if pl.stage = .str "frog" then .frog else .tadpole
    color := nextColor colorIndex
    hp := 5
    score := 0
    nickname := jsToString (jsOr pl.nickname (.str "Player")) }

/-- The `player:join` handler. -/
def handleJoin (st : ServerState) (cid : String) (pl : JoinPayload) :
    ServerState × Emitted :=
  let p := joinPlayer st.colorIndex pl
  ({ st with players := setPlayer st.players cid p, colorIndex := st.colorIndex + 1 },
   [(updatedEv cid p, .one cid), (.joined cid p, .allExcept cid)])

/-- The record written back by `food:eat`: `score + 10`, with the stage
re-evaluated against the promotion threshold 50. -/
def eatUpdated (player : Player) : Player :=
  { player with
    score := player.score + 10
    stage := if 50 ≤ player.score + 10 then Stage.frog else player.stage }

/-- The `food:eat` handler. -/
def handleEat (st : ServerState) (cid : String) : ServerState × Emitted :=
  match getPlayer st.players cid with
  | none => (st, [])
  | some player =>
      let updated := eatUpdated player
      ({ st with players := setPlayer st.players cid updated },
       [(updatedEv cid updated, .all)])

/-- The trust-and-merge of a `player:update` payload into a stored
record: a field is taken from the payload only when it has the right
type, otherwise the previous value is kept. -/
def updateMerged (prev : Player) (pl : UpdatePayload) : Player :=
  { prev with
    x := match pl.x with | .num n => n | _ => prev.x
    y := match pl.y with | .num n => n | _ => prev.y
    stage :=
      if pl.stage = .str "frog" then .frog
      else if pl.stage = .str "tadpole" then .tadpole
      else prev.stage }

/-- The `player:update` handler. -/
def handleUpdate (st : ServerState) (cid : String) (pl : UpdatePayload) :
    ServerState × Emitted :=
  match getPlayer st.players cid with
  | none => (st, [])
  | some prev =>
      let next := updateMerged prev pl
      ({ st with players := setPlayer st.players cid next },
       [(updatedEv cid next, .allExcept cid)])

/-- Descending sort, `sort((a, b) => b - a)`. -/
def sortDesc (l : List Int) : List Int := l.mergeSort (fun a b => decide (b ≤ a))

/-- JavaScript `Array.prototype.findIndex`, with `none` for `-1`. -/
def jsFindIndex (p : Int → Bool) : List Int → Option Nat
  | [] => none
  | a :: l => if p a then some 0 else (jsFindIndex p l).map (· + 1)

/-- `findIndex((value) => value <= deathScore) + 1 || 1`: one-based index
of the first entry at most the death score, or `1` when no entry
qualifies (JS `findIndex` yields `-1`, so `-1 + 1 = 0` is falsy). -/
def mapRankOf (sortedScores : List Int) (deathScore : Int) : Nat :=
  match jsFindIndex (fun v => decide (v ≤ deathScore)) sortedScores with
  | some i => i + 1
  | none => 1

/-- The `currentScores` array of the hit handler: every connected
player's score, with the target's entry replaced by the captured death
score. -/
def currentScoresOf (ps : PlayerMap) (tid : String) (s : Int) : List Int :=
  ps.map (fun e => if e.1 = tid then s else e.2.score)

/-- The death test of the hit handler: `nextHp === 0 && prevHp > 0`,
with `nextHp = Math.max(0, prevHp - 1)`. -/
def hitDied (prevHp : Int) : Bool :=
  decide (max 0 (prevHp - 1) = 0 ∧ 0 < prevHp)

/-- The record written back for the hit target: health decremented with
floor 0; on the death edge the score and stage are reset. -/
def hitUpdatedTarget (t : Player) : Player :=
  { t with
    hp := if hitDied t.hp then 0 else max 0 (t.hp - 1)
    stage := if hitDied t.hp then Stage.tadpole else t.stage
    score := if hitDied t.hp then 0 else t.score }

/-- The `player:hit` handler.  The `died` unicast is dispatched
asynchronously in the source (after the rank query resolves); it is
recorded here in the emitted list, conditional on the victim's socket
being open.  The `Number.isFinite` filter on `currentScores` is vacuous
because stored scores are integers. -/
def handleHit (st : ServerState) (cid : String) (targetIdVal : JSVal) :
    ServerState × Emitted :=
  match targetIdVal with
  | .str targetId =>
    if targetId = "" then (st, [])
    else
      match getPlayer st.players targetId with
      | none => (st, [])
      | some target =>
          let died := hitDied target.hp
          let deathScore := target.score
          let updated := hitUpdatedTarget target
          let st1 := { st with players := setPlayer st.players targetId updated }
          let ev1 : Emitted := [(updatedEv targetId updated, .all)]
          if died then
            let db1 := recordHighScore st1.db target.nickname deathScore
            let mapRank :=
              mapRankOf (sortDesc (currentScoresOf st.players targetId deathScore))
                deathScore
            let overallRank := getOverallRank db1 deathScore
            let evDied : Emitted :=
              if targetId ∈ st.conns then
                [(.died deathScore mapRank overallRank, .one targetId)]
              else []
            let st2 := { st1 with db := db1 }
            match getPlayer st2.players cid with
            | some attacker =>
                let updatedAttacker := { attacker with score := attacker.score + 50 }
                ({ st2 with players := setPlayer st2.players cid updatedAttacker },
                 ev1 ++ evDied ++ [(updatedEv cid updatedAttacker, .all)])
            | none => (st2, ev1 ++ evDied)
          else (st1, ev1)
  | _ => (st, [])

/-- The `player:attack` handler: stateless relay to all other
connections. -/
def handleAttack (st : ServerState) (cid : String) (heading : JSVal) :
    ServerState × Emitted :=
  (st, [(.attackRelay cid heading, .allExcept cid)])

/-- The record written by the `player:respawn` handler: a client
coordinate is used only when it is a finite number, otherwise the
`randomSpawn` point is used, with `rx`, `ry` the `Math.random()` draws;
colour and nickname are preserved from the previous record when one
exists. -/
def respawnPlayer (prev : Option Player) (colorIndex : Nat)
    (pl : RespawnPayload) (rx ry : ℚ) : Player :=
  { x :=
      match pl.x with
      | .num (.fin q) => .fin q
      | _ => .fin (rx * 480 + 80)
    y :=
      match pl.y with
      | .num (.fin q) => .fin q
      | _ => .fin (ry * 320 + 80)
    hp := 5
    stage := .tadpole
    score := 0
    color := match prev with | some p => p.color | none => nextColor colorIndex
    nickname := match prev with | some p => p.nickname | none => "Player" }

/-- The `player:respawn` handler body. -/
def handleRespawn (st : ServerState) (cid : String) (pl : RespawnPayload)
    (rx ry : ℚ) : ServerState × Emitted :=
  let prev := getPlayer st.players cid
  let next := respawnPlayer prev st.colorIndex pl rx ry
  let colorIndex' :=
    match prev with | some _ => st.colorIndex | none => st.colorIndex + 1
  ({ st with players := setPlayer st.players cid next, colorIndex := colorIndex' },
   [(updatedEv cid next, .all)])

/-- Dispatch of a decoded message, the `switch (parsed?.type)`; an
unrecognized `type` falls to the default branch, a no-op. -/
def handleMsg (st : ServerState) (cid : String) (m : ClientMsg) (rx ry : ℚ) :
    ServerState × Emitted :=
  match m with
  | .join p => handleJoin st cid p
  | .eat => handleEat st cid
  | .update p => handleUpdate st cid p
  | .hit t => handleHit st cid t
  | .attack h => handleAttack st cid h
  | .respawn p => handleRespawn st cid p rx ry
  | .other => (st, [])

/-- An inbound frame: `malformed` models a frame `JSON.parse` rejects
(the handler logs and returns). -/
inductive Frame where
  | malformed
  | msg (m : ClientMsg)
deriving DecidableEq, Repr

/-- The per-frame message handler, including the parse guard. -/
def handleFrame (st : ServerState) (cid : String) (f : Frame) (rx ry : ℚ) :
    ServerState × Emitted :=
  match f with
  | .malformed => (st, [])
  | .msg m => handleMsg st cid m rx ry

/-- An externally observable server action: a connection opening, a frame
arriving on an open connection, or a connection closing. -/
inductive Action where
  | connect (id : String)
  | frame (cid : String) (f : Frame) (rx ry : ℚ)
  | disconnect (id : String)

/-- One action applied to the server state.  Frames are only delivered on
open connections; `connect` ids are fresh (`randomUUID`), so a duplicate
`connect` is a no-op; `close` removes the connection and deletes the
player record when present. -/
def applyAction (st : ServerState) : Action → ServerState
  | .connect id => if id ∈ st.conns then st else { st with conns := id :: st.conns }
  | .frame cid f rx ry => if cid ∈ st.conns then (handleFrame st cid f rx ry).1 else st
  | .disconnect id =>
      if id ∈ st.conns then
        { st with conns := st.conns.filter (fun c => decide (c ≠ id))
                  players := delPlayer st.players id }
      else st

/-- The server's initial state: empty store, colour counter zero, no
connections, and whatever persistence pool `initDb` produced. -/
def initState (db : Option ScoreTable) : ServerState :=
  { players := [], colorIndex := 0, conns := [], db := db }

/-- Running a trace of actions from a state. -/
def run (st : ServerState) (acts : List Action) : ServerState :=
  acts.foldl applyAction st

/-- Number of `player:died` events in an emitted batch. -/
def diedCount (ev : Emitted) : Nat :=
  ev.countP (fun e => match e.1 with | .died _ _ _ => true | _ => false)

/-- A sequence of `hit` intents naming one target, sent by the listed
attackers in order; returns the final state and the total number of
`died` events emitted along the way. -/
def hitSeq (st : ServerState) (tid : String) : List String → ServerState × Nat
  | [] => (st, 0)
  | a :: rest =>
      let res := handleHit st a (.str tid)
      let next := hitSeq res.1 tid rest
      (next.1, diedCount res.2 + next.2)

/-- `k` consecutive `eat` intents from one session. -/
def runEats (st : ServerState) (cid : String) : Nat → ServerState
  | 0 => st
  | k + 1 => runEats (handleEat st cid).1 cid k

/-- Valid arena bounds: the client canvas is at least 640×480, and the
server's random spawn draws from `[80, 560) × [80, 400)`. -/
def inArenaBounds (x y : JNum) : Prop :=
  ∃ qx qy : ℚ, x = .fin qx ∧ y = .fin qy ∧
    0 ≤ qx ∧ qx ≤ 640 ∧ 0 ≤ qy ∧ qy ≤ 480

/-- The store contains a record for `id`. -/
def hasPlayer (ps : PlayerMap) (id : String) : Bool :=
  (getPlayer ps id).isSome

/-- Keys of the store are pairwise distinct (the JS `Map` guarantee). -/
def keysNodup (ps : PlayerMap) : Prop :=
  (ps.map Prod.fst).Nodup

/-- Whether a frame is a store-creating intent (`join` or `respawn`). -/
def isCreating : Frame → Bool
  | .msg (.join _) => true
  | .msg (.respawn _) => true
  | _ => false

/-- Session bookkeeping for one identifier along a trace: the first
component is whether the connection is live, the second whether a `join`
or `respawn` intent has completed since it last connected. -/
def stepFlags (id : String) (s : Bool × Bool) : Action → Bool × Bool
  | .connect j => if j = id then (if s.1 then s else (true, false)) else s
  | .disconnect j => if j = id then (if s.1 then (false, false) else s) else s
  | .frame cid f _ _ =>
      if cid = id ∧ s.1 = true ∧ isCreating f = true then (s.1, true) else s

/-- The bookkeeping flags of `id` after a whole trace. -/
def flagsOf (acts : List Action) (id : String) : Bool × Bool :=
  acts.foldl (stepFlags id) (false, false)

/-- One store transition of a frame handler, viewed through health: every
record after the step either was just (re)initialized to health 5, keeps
the health of a record stored before the step, or applies the hit
decrement to one. -/
def HpStep (ps ps' : PlayerMap) : Prop :=
  ∀ id p', getPlayer ps' id = some p' →
    p'.hp = 5 ∨ ∃ p0, getPlayer ps id = some p0 ∧
      (p'.hp = p0.hp ∨ p'.hp = max 0 (p0.hp - 1))

/-- The health invariant: every stored record has health in `[0, 5]`. -/
def hpInv (st : ServerState) : Prop :=
  ∀ id p, getPlayer st.players id = some p → 0 ≤ p.hp ∧ p.hp ≤ 5

/-- Correspondence between a server state and per-session bookkeeping
flags: a record exists exactly for flag state `(live, joined) = (true,
true)`, and the connection list matches the live flag. -/
def flagsInv (st : ServerState) (fl : String → Bool × Bool) : Prop :=
  ∀ id, (hasPlayer st.players id = true ↔ fl id = (true, true)) ∧
    (id ∈ st.conns ↔ (fl id).1 = true)

/-! ## Concrete fixtures used to instantiate the theorems -/

/-- A concrete target player with two health points. -/
def wT : Player :=
  { x := .fin 100, y := .fin 100, stage := .tadpole, color := 0xff6b6b,
    hp := 2, score := 0, nickname := "T" }

/-- A concrete attacker player at full health. -/
def wA : Player :=
  { x := .fin 200, y := .fin 200, stage := .tadpole, color := 0x4ecdc4,
    hp := 5, score := 0, nickname := "A" }

/-- A concrete server state with a target and an attacker connected. -/
def wSt : ServerState :=
  { players := [("t", wT), ("a", wA)], colorIndex := 2,
    conns := ["t", "a"], db := none }

/-- The target one hit away from death, with a score of 40. -/
def wT1 : Player := { wT with hp := 1, score := 40 }

/-- `wSt` with the target one hit away from death. -/
def wSt1 : ServerState := { wSt with players := [("t", wT1), ("a", wA)] }

/-- A `join` payload whose `x` is a non-numeric string. -/
def wJoinAbc : JoinPayload :=
  { x := .str "abc", y := .undef, stage := .undef, nickname := .str "Bob" }

/-- A `join` payload with every field absent. -/
def wJoinDef : JoinPayload :=
  { x := .undef, y := .undef, stage := .undef, nickname := .undef }

/-- An `update` payload whose `x` is a non-numeric string. -/
def wUpdAbc : UpdatePayload :=
  { x := .str "not-a-number", y := .undef, stage := .undef }

/-- A `respawn` payload with both coordinates absent. -/
def wResp : RespawnPayload := { x := .undef, y := .undef }

/-- A trace: one connection joins with an empty payload. -/
def wActs : List Action :=
  [.connect "a", .frame "a" (.msg (.join wJoinDef)) 0 0]

/-- A trace: one connection sends `respawn` without ever joining. -/
def wActsResp : List Action :=
  [.connect "s", .frame "s" (.msg (.respawn wResp)) 0 0]

/-- `wSt1` with a configured persistence pool holding two records. -/
def wStDb : ServerState := { wSt1 with db := some [("X", 100), ("Y", 10)] }

/-! ## Store lemmas -/

theorem any_key_eq_hasPlayer (ps : PlayerMap) (id : String) :
    (ps.any (fun e => decide (e.1 = id))) = hasPlayer ps id := by
  induction ps with
  | nil => rfl
  | cons e rest ih =>
      by_cases h : e.1 = id
      · simp [hasPlayer, getPlayer, h]
      · simpa [hasPlayer, getPlayer, h] using ih

theorem getPlayer_append (ps qs : PlayerMap) (id : String) :
    getPlayer (ps ++ qs) id =
      match getPlayer ps id with
      | some v => some v
      | none => getPlayer qs id := by
  induction ps with
  | nil => rfl
  | cons e rest ih =>
      by_cases he : e.1 = id
      · simp [getPlayer, he]
      · simpa [getPlayer, he] using ih

theorem getPlayer_replace_ne (ps : PlayerMap) (id id' : String) (p : Player)
    (h : id' ≠ id) :
    getPlayer (ps.map (fun e => if e.1 = id then (id, p) else e)) id' =
      getPlayer ps id' := by
  induction ps with
  | nil => rfl
  | cons e rest ih =>
      by_cases he : e.1 = id
      · have hne : ¬ id = id' := fun hc => h hc.symm
        simp only [List.map_cons, if_pos he, getPlayer, if_neg hne]
        rw [ih, if_neg (he ▸ hne ∘ Eq.symm ∘ Eq.symm : ¬ e.1 = id')]
      · simp only [List.map_cons, if_neg he, getPlayer]
        by_cases he' : e.1 = id'
        · simp [he']
        · simp only [if_neg he']
          exact ih

theorem getPlayer_replace_self (ps : PlayerMap) (id : String) (p : Player)
    (hany : ps.any (fun e => decide (e.1 = id)) = true) :
    getPlayer (ps.map (fun e => if e.1 = id then (id, p) else e)) id = some p := by
  induction ps with
  | nil => simp at hany
  | cons e rest ih =>
      by_cases he : e.1 = id
      · simp [getPlayer, he]
      · simp only [List.any_cons, Bool.or_eq_true, decide_eq_true_eq] at hany
        have hr : rest.any (fun e => decide (e.1 = id)) = true := by
          rcases hany with h1 | h2
          · exact absurd h1 he
          · exact h2
        simpa [getPlayer, he] using ih hr

theorem hasPlayer_false_getPlayer (ps : PlayerMap) (id : String)
    (h : hasPlayer ps id = false) : getPlayer ps id = none := by
  unfold hasPlayer at h
  cases hg : getPlayer ps id with
  | none => rfl
  | some v => rw [hg] at h; simp at h

theorem getPlayer_set_self (ps : PlayerMap) (id : String) (p : Player) :
    getPlayer (setPlayer ps id p) id = some p := by
  unfold setPlayer
  by_cases hany : ps.any (fun e => decide (e.1 = id)) = true
  · rw [if_pos hany]
    exact getPlayer_replace_self ps id p hany
  · rw [if_neg hany]
    rw [getPlayer_append]
    have : getPlayer ps id = none := by
      apply hasPlayer_false_getPlayer
      rw [← any_key_eq_hasPlayer]
      exact Bool.not_eq_true _ ▸ hany
    rw [this]
    simp [getPlayer]

theorem getPlayer_set_ne (ps : PlayerMap) (id id' : String) (p : Player)
    (h : id' ≠ id) :
    getPlayer (setPlayer ps id p) id' = getPlayer ps id' := by
  unfold setPlayer
  by_cases hany : ps.any (fun e => decide (e.1 = id)) = true
  · rw [if_pos hany]
    exact getPlayer_replace_ne ps id id' p h
  · rw [if_neg hany]
    rw [getPlayer_append]
    have hne : ¬ id = id' := fun hc => h hc.symm
    cases hg : getPlayer ps id' with
    | some v => rfl
    | none => simp [getPlayer, hne]

theorem getPlayer_set (ps : PlayerMap) (id id' : String) (p : Player) :
    getPlayer (setPlayer ps id p) id' =
      if id' = id then some p else getPlayer ps id' := by
  by_cases h : id' = id
  · subst h; simp [getPlayer_set_self]
  · simp [h, getPlayer_set_ne ps id id' p h]

theorem getPlayer_del (ps : PlayerMap) (id id' : String) :
    getPlayer (delPlayer ps id) id' =
      if id' = id then none else getPlayer ps id' := by
  induction ps with
  | nil => simp [delPlayer, getPlayer]
  | cons e rest ih =>
      simp only [delPlayer]
      by_cases he : e.1 = id
      · rw [if_pos he, ih]
        by_cases h' : id' = id
        · simp [h']
        · rw [if_neg h', if_neg h']
          have hne : ¬ e.1 = id' := by rw [he]; exact fun hc => h' hc.symm
          simp [getPlayer, hne]
      · rw [if_neg he]
        by_cases h2 : e.1 = id'
        · have hne : ¬ id' = id := fun hc => he (by rw [h2, hc])
          simp [getPlayer, h2, hne]
        · simp only [getPlayer, if_neg h2]
          exact ih

theorem getPlayer_mem {ps : PlayerMap} {id : String} {p : Player}
    (h : getPlayer ps id = some p) : (id, p) ∈ ps := by
  induction ps with
  | nil => simp [getPlayer] at h
  | cons e rest ih =>
      by_cases he : e.1 = id
      · simp only [getPlayer, if_pos he] at h
        injection h with h2
        cases e with
        | mk a b =>
            simp only at he h2
            subst he; subst h2
            exact List.mem_cons_self _ _
      · simp only [getPlayer, if_neg he] at h
        exact List.mem_cons_of_mem _ (ih h)

/-! ## Handler reduction lemmas -/

theorem handleEat_none {st : ServerState} {cid : String}
    (h : getPlayer st.players cid = none) : handleEat st cid = (st, []) := by
  unfold handleEat; rw [h]

theorem handleEat_some {st : ServerState} {cid : String} {p : Player}
    (h : getPlayer st.players cid = some p) :
    handleEat st cid =
      ({ st with players := setPlayer st.players cid (eatUpdated p) },
       [(updatedEv cid (eatUpdated p), .all)]) := by
  unfold handleEat; rw [h]

theorem handleUpdate_none {st : ServerState} {cid : String} {pl : UpdatePayload}
    (h : getPlayer st.players cid = none) : handleUpdate st cid pl = (st, []) := by
  unfold handleUpdate; rw [h]

theorem handleUpdate_some {st : ServerState} {cid : String} {pl : UpdatePayload}
    {p : Player} (h : getPlayer st.players cid = some p) :
    handleUpdate st cid pl =
      ({ st with players := setPlayer st.players cid (updateMerged p pl) },
       [(updatedEv cid (updateMerged p pl), .allExcept cid)]) := by
  unfold handleUpdate; rw [h]

theorem handleHit_no_target {st : ServerState} {cid tid : String}
    (hne : tid ≠ "") (h : getPlayer st.players tid = none) :
    handleHit st cid (.str tid) = (st, []) := by
  unfold handleHit; simp [hne, h]

theorem handleHit_not_died {st : ServerState} {cid tid : String} {t : Player}
    (hne : tid ≠ "") (hg : getPlayer st.players tid = some t)
    (hd : hitDied t.hp = false) :
    handleHit st cid (.str tid) =
      ({ st with players := setPlayer st.players tid (hitUpdatedTarget t) },
       [(updatedEv tid (hitUpdatedTarget t), .all)]) := by
  unfold handleHit
  simp [hne, hg, hd]

theorem handleHit_died_attacker {st : ServerState} {cid tid : String}
    {t attacker : Player}
    (hne : tid ≠ "") (hg : getPlayer st.players tid = some t)
    (hd : hitDied t.hp = true)
    (ha : getPlayer (setPlayer st.players tid (hitUpdatedTarget t)) cid =
      some attacker) :
    handleHit st cid (.str tid) =
      ({ st with
          players := setPlayer (setPlayer st.players tid (hitUpdatedTarget t)) cid
            { attacker with score := attacker.score + 50 }
          db := recordHighScore st.db t.nickname t.score },
       [(updatedEv tid (hitUpdatedTarget t), .all)] ++
        (if tid ∈ st.conns then
          [(.died t.score
              (mapRankOf (sortDesc (currentScoresOf st.players tid t.score)) t.score)
              (getOverallRank (recordHighScore st.db t.nickname t.score) t.score),
            .one tid)]
         else []) ++
        [(updatedEv cid { attacker with score := attacker.score + 50 }, .all)]) := by
  unfold handleHit
  simp only [if_neg hne, hg, hd, if_true]
  simp only [ha]

theorem handleHit_died_no_attacker {st : ServerState} {cid tid : String}
    {t : Player}
    (hne : tid ≠ "") (hg : getPlayer st.players tid = some t)
    (hd : hitDied t.hp = true)
    (ha : getPlayer (setPlayer st.players tid (hitUpdatedTarget t)) cid = none) :
    handleHit st cid (.str tid) =
      ({ st with
          players := setPlayer st.players tid (hitUpdatedTarget t)
          db := recordHighScore st.db t.nickname t.score },
       [(updatedEv tid (hitUpdatedTarget t), .all)] ++
        (if tid ∈ st.conns then
          [(.died t.score
              (mapRankOf (sortDesc (currentScoresOf st.players tid t.score)) t.score)
              (getOverallRank (recordHighScore st.db t.nickname t.score) t.score),
            .one tid)]
         else [])) := by
  unfold handleHit
  simp only [if_neg hne, hg, hd, if_true]
  simp only [ha]

theorem handleHit_not_str {st : ServerState} {cid : String} {v : JSVal}
    (h : ∀ s : String, v ≠ .str s) : handleHit st cid v = (st, []) := by
  unfold handleHit
  cases v with
  | str s => exact absurd rfl (h s)
  | undef => rfl
  | null => rfl
  | num n => rfl
  | boolv b => rfl

/-- Case analysis on the result of the hit handler, for any argument. -/
theorem handleHit_elim (P : ServerState × Emitted → Prop)
    (st : ServerState) (cid : String) (v : JSVal)
    (hnoop : P (st, []))
    (hnod : ∀ tid t, v = .str tid → tid ≠ "" →
      getPlayer st.players tid = some t → hitDied t.hp = false →
      P ({ st with players := setPlayer st.players tid (hitUpdatedTarget t) },
         [(updatedEv tid (hitUpdatedTarget t), .all)]))
    (hatt : ∀ tid t attacker, v = .str tid → tid ≠ "" →
      getPlayer st.players tid = some t → hitDied t.hp = true →
      getPlayer (setPlayer st.players tid (hitUpdatedTarget t)) cid = some attacker →
      P ({ st with
            players := setPlayer (setPlayer st.players tid (hitUpdatedTarget t)) cid
              { attacker with score := attacker.score + 50 }
            db := recordHighScore st.db t.nickname t.score },
         [(updatedEv tid (hitUpdatedTarget t), .all)] ++
          (if tid ∈ st.conns then
            [(.died t.score
                (mapRankOf (sortDesc (currentScoresOf st.players tid t.score)) t.score)
                (getOverallRank (recordHighScore st.db t.nickname t.score) t.score),
              .one tid)]
           else []) ++
          [(updatedEv cid { attacker with score := attacker.score + 50 }, .all)]))
    (hnoatt : ∀ tid t, v = .str tid → tid ≠ "" →
      getPlayer st.players tid = some t → hitDied t.hp = true →
      getPlayer (setPlayer st.players tid (hitUpdatedTarget t)) cid = none →
      P ({ st with
            players := setPlayer st.players tid (hitUpdatedTarget t)
            db := recordHighScore st.db t.nickname t.score },
         [(updatedEv tid (hitUpdatedTarget t), .all)] ++
          (if tid ∈ st.conns then
            [(.died t.score
                (mapRankOf (sortDesc (currentScoresOf st.players tid t.score)) t.score)
                (getOverallRank (recordHighScore st.db t.nickname t.score) t.score),
              .one tid)]
           else []))) :
    P (handleHit st cid v) := by
  cases v with
  | str tid =>
      by_cases hne : tid = ""
      · subst hne
        unfold handleHit
        simpa using hnoop
      · cases hg : getPlayer st.players tid with
        | none => rw [handleHit_no_target hne hg]; exact hnoop
        | some t =>
            cases hd : hitDied t.hp with
            | false =>
                rw [handleHit_not_died hne hg hd]
                exact hnod tid t rfl hne hg hd
            | true =>
                cases ha : getPlayer (setPlayer st.players tid (hitUpdatedTarget t)) cid with
                | none =>
                    rw [handleHit_died_no_attacker hne hg hd ha]
                    exact hnoatt tid t rfl hne hg hd ha
                | some attacker =>
                    rw [handleHit_died_attacker hne hg hd ha]
                    exact hatt tid t attacker rfl hne hg hd ha
  | undef => rw [handleHit_not_str (by intro s h; cases h)]; exact hnoop
  | null => rw [handleHit_not_str (by intro s h; cases h)]; exact hnoop
  | num n => rw [handleHit_not_str (by intro s h; cases h)]; exact hnoop
  | boolv b => rw [handleHit_not_str (by intro s h; cases h)]; exact hnoop

/-! ## Component preservation -/

theorem handleHit_frame (st : ServerState) (cid : String) (v : JSVal) :
    (handleHit st cid v).1.conns = st.conns ∧
    (handleHit st cid v).1.colorIndex = st.colorIndex := by
  apply handleHit_elim
    (fun r => r.1.conns = st.conns ∧ r.1.colorIndex = st.colorIndex) st cid v
  · exact ⟨rfl, rfl⟩
  · intro _ _ _ _ _ _; exact ⟨rfl, rfl⟩
  · intro _ _ _ _ _ _ _ _; exact ⟨rfl, rfl⟩
  · intro _ _ _ _ _ _ _; exact ⟨rfl, rfl⟩

theorem handleEat_frame (st : ServerState) (cid : String) :
    (handleEat st cid).1.conns = st.conns ∧
    (handleEat st cid).1.colorIndex = st.colorIndex ∧
    (handleEat st cid).1.db = st.db := by
  cases h : getPlayer st.players cid with
  | none => rw [handleEat_none h]; exact ⟨rfl, rfl, rfl⟩
  | some p => rw [handleEat_some h]; exact ⟨rfl, rfl, rfl⟩

theorem handleUpdate_frame (st : ServerState) (cid : String) (pl : UpdatePayload) :
    (handleUpdate st cid pl).1.conns = st.conns ∧
    (handleUpdate st cid pl).1.colorIndex = st.colorIndex ∧
    (handleUpdate st cid pl).1.db = st.db := by
  cases h : getPlayer st.players cid with
  | none => rw [handleUpdate_none h]; exact ⟨rfl, rfl, rfl⟩
  | some p => rw [handleUpdate_some h]; exact ⟨rfl, rfl, rfl⟩

theorem handleFrame_conns (st : ServerState) (cid : String) (f : Frame)
    (rx ry : ℚ) : (handleFrame st cid f rx ry).1.conns = st.conns := by
  cases f with
  | malformed => rfl
  | msg m =>
      cases m with
      | join p => rfl
      | eat => exact (handleEat_frame st cid).1
      | update p => exact (handleUpdate_frame st cid p).1
      | hit t => exact (handleHit_frame st cid t).1
      | attack h => rfl
      | respawn p => rfl
      | other => rfl

/-! ## Facts about the death test and the hit write -/

theorem hitDied_iff (h : Int) :
    hitDied h = true ↔ (max 0 (h - 1) = 0 ∧ 0 < h) := by
  unfold hitDied
  exact decide_eq_true_iff

theorem hitDied_eq_one (h : Int) : hitDied h = true ↔ h = 1 := by
  rw [hitDied_iff]
  omega

theorem hitUpdatedTarget_hp (t : Player) :
    (hitUpdatedTarget t).hp = max 0 (t.hp - 1) := by
  unfold hitUpdatedTarget
  cases hd : hitDied t.hp with
  | true =>
      have := (hitDied_iff t.hp).1 hd
      simp [this.1]
  | false => simp

theorem hitUpdatedTarget_of_died {t : Player} (hd : hitDied t.hp = true) :
    hitUpdatedTarget t = { t with hp := 0, stage := .tadpole, score := 0 } := by
  unfold hitUpdatedTarget
  simp [hd]

theorem hitUpdatedTarget_of_alive {t : Player} (hd : hitDied t.hp = false) :
    hitUpdatedTarget t = { t with hp := max 0 (t.hp - 1) } := by
  unfold hitUpdatedTarget
  simp [hd]

/-! ## Health step lemmas -/

theorem hpStep_refl (ps : PlayerMap) : HpStep ps ps :=
  fun _ p' h => .inr ⟨p', h, .inl rfl⟩

theorem handleJoin_hpStep (st : ServerState) (cid : String) (pl : JoinPayload) :
    HpStep st.players (handleJoin st cid pl).1.players := by
  intro id p' h
  unfold handleJoin at h
  simp only at h
  rw [getPlayer_set] at h
  by_cases hid : id = cid
  · rw [if_pos hid] at h
    injection h with h
    left; rw [← h]; rfl
  · rw [if_neg hid] at h
    exact .inr ⟨p', h, .inl rfl⟩

theorem handleEat_hpStep (st : ServerState) (cid : String) :
    HpStep st.players (handleEat st cid).1.players := by
  cases hg : getPlayer st.players cid with
  | none => rw [handleEat_none hg]; exact hpStep_refl _
  | some p =>
      rw [handleEat_some hg]
      intro id p' h
      simp only at h
      rw [getPlayer_set] at h
      by_cases hid : id = cid
      · rw [if_pos hid] at h
        injection h with h
        right
        exact ⟨p, hid ▸ hg, .inl (by rw [← h]; rfl)⟩
      · rw [if_neg hid] at h
        exact .inr ⟨p', h, .inl rfl⟩

theorem handleUpdate_hpStep (st : ServerState) (cid : String) (pl : UpdatePayload) :
    HpStep st.players (handleUpdate st cid pl).1.players := by
  cases hg : getPlayer st.players cid with
  | none => rw [handleUpdate_none hg]; exact hpStep_refl _
  | some p =>
      rw [handleUpdate_some hg]
      intro id p' h
      simp only at h
      rw [getPlayer_set] at h
      by_cases hid : id = cid
      · rw [if_pos hid] at h
        injection h with h
        right
        exact ⟨p, hid ▸ hg, .inl (by rw [← h]; rfl)⟩
      · rw [if_neg hid] at h
        exact .inr ⟨p', h, .inl rfl⟩

theorem handleRespawn_hpStep (st : ServerState) (cid : String)
    (pl : RespawnPayload) (rx ry : ℚ) :
    HpStep st.players (handleRespawn st cid pl rx ry).1.players := by
  intro id p' h
  unfold handleRespawn at h
  simp only at h
  rw [getPlayer_set] at h
  by_cases hid : id = cid
  · rw [if_pos hid] at h
    injection h with h
    left; rw [← h]; rfl
  · rw [if_neg hid] at h
    exact .inr ⟨p', h, .inl rfl⟩

theorem handleHit_hpStep (st : ServerState) (cid : String) (v : JSVal) :
    HpStep st.players (handleHit st cid v).1.players := by
  apply handleHit_elim (fun r => HpStep st.players r.1.players) st cid v
  · exact hpStep_refl _
  · intro tid t hv hne hg hd
    intro id p' h
    simp only at h
    rw [getPlayer_set] at h
    by_cases hid : id = tid
    · rw [if_pos hid] at h
      injection h with h
      right
      exact ⟨t, hid ▸ hg, .inr (by rw [← h, hitUpdatedTarget_hp])⟩
    · rw [if_neg hid] at h
      exact .inr ⟨p', h, .inl rfl⟩
  · intro tid t attacker hv hne hg hd ha
    intro id p' h
    simp only at h
    rw [getPlayer_set] at h
    by_cases hid : id = cid
    · rw [if_pos hid] at h
      injection h with h
      rw [getPlayer_set] at ha
      by_cases hct : cid = tid
      · rw [if_pos hct] at ha
        injection ha with ha
        right
        refine ⟨t, (hct ▸ hid : id = tid) ▸ hg, .inr ?_⟩
        rw [← h, ← ha]
        show (hitUpdatedTarget t).hp = _
        rw [hitUpdatedTarget_hp]
      · rw [if_neg hct] at ha
        right
        exact ⟨attacker, (hid ▸ ha : getPlayer st.players id = some attacker),
          .inl (by rw [← h])⟩
    · rw [if_neg hid] at h
      rw [getPlayer_set] at h
      by_cases hit' : id = tid
      · rw [if_pos hit'] at h
        injection h with h
        right
        exact ⟨t, hit' ▸ hg, .inr (by rw [← h, hitUpdatedTarget_hp])⟩
      · rw [if_neg hit'] at h
        exact .inr ⟨p', h, .inl rfl⟩
  · intro tid t hv hne hg hd ha
    intro id p' h
    simp only at h
    rw [getPlayer_set] at h
    by_cases hid : id = tid
    · rw [if_pos hid] at h
      injection h with h
      right
      exact ⟨t, hid ▸ hg, .inr (by rw [← h, hitUpdatedTarget_hp])⟩
    · rw [if_neg hid] at h
      exact .inr ⟨p', h, .inl rfl⟩

theorem applyAction_hpStep (st : ServerState) (a : Action) :
    HpStep st.players (applyAction st a).players := by
  cases a with
  | connect id =>
      simp only [applyAction]
      by_cases hc : id ∈ st.conns
      · rw [if_pos hc]; exact hpStep_refl _
      · rw [if_neg hc]; exact hpStep_refl _
  | disconnect id =>
      simp only [applyAction]
      by_cases hc : id ∈ st.conns
      · rw [if_pos hc]
        intro id' p' h
        simp only at h
        rw [getPlayer_del] at h
        by_cases hid : id' = id
        · rw [if_pos hid] at h; cases h
        · rw [if_neg hid] at h
          exact .inr ⟨p', h, .inl rfl⟩
      · rw [if_neg hc]; exact hpStep_refl _
  | frame cid f rx ry =>
      simp only [applyAction]
      by_cases hc : cid ∈ st.conns
      · rw [if_pos hc]
        cases f with
        | malformed => exact hpStep_refl _
        | msg m =>
            cases m with
            | join p => exact handleJoin_hpStep st cid p
            | eat => exact handleEat_hpStep st cid
            | update p => exact handleUpdate_hpStep st cid p
            | hit t => exact handleHit_hpStep st cid t
            | attack h => exact hpStep_refl _
            | respawn p => exact handleRespawn_hpStep st cid p rx ry
            | other => exact hpStep_refl _
      · rw [if_neg hc]; exact hpStep_refl _

theorem hpInv_step {st : ServerState} {a : Action} (h : hpInv st) :
    hpInv (applyAction st a) := by
  intro id p hp
  rcases applyAction_hpStep st a id p hp with h5 | ⟨p0, hp0, hcase⟩
  · omega
  · rcases h id p0 hp0 with ⟨h1, h2⟩
    rcases hcase with he | he <;> omega

/-! ## Store domain lemmas -/

theorem hasPlayer_set (ps : PlayerMap) (id id' : String) (p : Player) :
    hasPlayer (setPlayer ps id p) id' = (decide (id' = id) || hasPlayer ps id') := by
  unfold hasPlayer
  rw [getPlayer_set]
  by_cases h : id' = id <;> simp [h]

theorem hasPlayer_del (ps : PlayerMap) (id id' : String) :
    hasPlayer (delPlayer ps id) id' = (!decide (id' = id) && hasPlayer ps id') := by
  unfold hasPlayer
  rw [getPlayer_del]
  by_cases h : id' = id <;> simp [h]

theorem hasPlayer_set_existing {ps : PlayerMap} {id : String} {p0 : Player}
    (h : getPlayer ps id = some p0) (id' : String) (p : Player) :
    hasPlayer (setPlayer ps id p) id' = hasPlayer ps id' := by
  rw [hasPlayer_set]
  by_cases hid : id' = id
  · subst hid
    simp [hasPlayer, h]
  · simp [hid]

theorem handleJoin_hasPlayer (st : ServerState) (cid : String)
    (pl : JoinPayload) (id : String) :
    hasPlayer (handleJoin st cid pl).1.players id =
      (decide (id = cid) || hasPlayer st.players id) := by
  unfold handleJoin
  exact hasPlayer_set st.players cid id _

theorem handleRespawn_hasPlayer (st : ServerState) (cid : String)
    (pl : RespawnPayload) (rx ry : ℚ) (id : String) :
    hasPlayer (handleRespawn st cid pl rx ry).1.players id =
      (decide (id = cid) || hasPlayer st.players id) := by
  unfold handleRespawn
  exact hasPlayer_set st.players cid id _

theorem handleEat_hasPlayer (st : ServerState) (cid : String) (id : String) :
    hasPlayer (handleEat st cid).1.players id = hasPlayer st.players id := by
  cases hg : getPlayer st.players cid with
  | none => rw [handleEat_none hg]
  | some p =>
      rw [handleEat_some hg]
      exact hasPlayer_set_existing hg id _

theorem handleUpdate_hasPlayer (st : ServerState) (cid : String)
    (pl : UpdatePayload) (id : String) :
    hasPlayer (handleUpdate st cid pl).1.players id = hasPlayer st.players id := by
  cases hg : getPlayer st.players cid with
  | none => rw [handleUpdate_none hg]
  | some p =>
      rw [handleUpdate_some hg]
      exact hasPlayer_set_existing hg id _

theorem handleHit_hasPlayer (st : ServerState) (cid : String) (v : JSVal)
    (id : String) :
    hasPlayer (handleHit st cid v).1.players id = hasPlayer st.players id := by
  apply handleHit_elim
    (fun r => hasPlayer r.1.players id = hasPlayer st.players id) st cid v
  · rfl
  · intro tid t hv hne hg hd
    exact hasPlayer_set_existing hg id _
  · intro tid t attacker hv hne hg hd ha
    show hasPlayer (setPlayer (setPlayer st.players tid (hitUpdatedTarget t)) cid _) id = _
    rw [hasPlayer_set_existing ha id _]
    exact hasPlayer_set_existing hg id _
  · intro tid t hv hne hg hd ha
    exact hasPlayer_set_existing hg id _

/-! ## The flags invariant -/

theorem flagsInv_init (db : Option ScoreTable) :
    flagsInv (initState db) (fun _ => (false, false)) := by
  intro id
  constructor
  · constructor
    · intro h; cases h
    · intro h; cases h
  · constructor
    · intro h; cases h
    · intro h; cases h

theorem flagsInv_step {st : ServerState} {fl : String → Bool × Bool}
    (hinv : flagsInv st fl) (a : Action) :
    flagsInv (applyAction st a) (fun id => stepFlags id (fl id) a) := by
  cases a with
  | connect j =>
      intro id
      simp only [applyAction, stepFlags]
      by_cases hc : j ∈ st.conns
      · rw [if_pos hc]
        by_cases hj : j = id
        · subst hj
          have hlive : (fl j).1 = true := (hinv j).2.1 hc
          have hstep :
              (if j = j then (if (fl j).1 = true then fl j else (true, false))
               else fl j) = fl j := by
            rw [if_pos rfl, hlive]
            simp
          rw [hstep]
          exact hinv j
        · rw [if_neg hj]
          exact hinv id
      · rw [if_neg hc]
        by_cases hj : j = id
        · subst hj
          have hlive : (fl j).1 = false := by
            cases hl : (fl j).1 with
            | true => exact absurd ((hinv j).2.2 hl) hc
            | false => rfl
          simp only [if_pos rfl, hlive, Bool.false_eq_true, if_false]
          constructor
          · constructor
            · intro h
              have := ((hinv j).1.1 h)
              rw [this] at hlive
              cases hlive
            · intro h
              cases h
          · constructor
            · intro _; rfl
            · intro _
              exact List.mem_cons_self _ _
        · rw [if_neg hj]
          constructor
          · exact (hinv id).1
          · constructor
            · intro h
              rcases List.mem_cons.1 h with h1 | h2
              · exact absurd h1.symm hj
              · exact (hinv id).2.1 h2
            · intro h
              exact List.mem_cons_of_mem _ ((hinv id).2.2 h)
  | disconnect j =>
      intro id
      simp only [applyAction, stepFlags]
      by_cases hc : j ∈ st.conns
      · rw [if_pos hc]
        have hlive : (fl j).1 = true := (hinv j).2.1 hc
        by_cases hj : j = id
        · subst hj
          simp only [if_pos rfl, hlive, if_true]
          constructor
          · constructor
            · intro h
              rw [hasPlayer_del] at h
              simp at h
            · intro h
              cases h
          · constructor
            · intro h
              rcases List.mem_filter.1 h with ⟨_, hne⟩
              simp at hne
            · intro h
              cases h
        · rw [if_neg hj]
          have hne : ¬ id = j := fun hc' => hj hc'.symm
          constructor
          · constructor
            · intro h
              rw [hasPlayer_del] at h
              have h2 : hasPlayer st.players id = true := by
                cases hb : hasPlayer st.players id with
                | true => rfl
                | false => rw [hb] at h; simp at h
              exact (hinv id).1.1 h2
            · intro h
              rw [hasPlayer_del]
              have h1 : hasPlayer st.players id = true := (hinv id).1.2 h
              simp [hne, h1]
          · constructor
            · intro h
              exact (hinv id).2.1 (List.mem_filter.1 h).1
            · intro h
              apply List.mem_filter.2
              refine ⟨(hinv id).2.2 h, ?_⟩
              simp [hne]
      · rw [if_neg hc]
        by_cases hj : j = id
        · subst hj
          have hlive : (fl j).1 = false := by
            cases hl : (fl j).1 with
            | true => exact absurd ((hinv j).2.2 hl) hc
            | false => rfl
          simp only [if_pos rfl, hlive, Bool.false_eq_true, if_false]
          exact hinv j
        · rw [if_neg hj]
          exact hinv id
  | frame cid f rx ry =>
      intro id
      simp only [applyAction, stepFlags]
      by_cases hc : cid ∈ st.conns
      · rw [if_pos hc]
        have hlive : (fl cid).1 = true := (hinv cid).2.1 hc
        have hconns : (handleFrame st cid f rx ry).1.conns = st.conns :=
          handleFrame_conns st cid f rx ry
        by_cases hcrt : isCreating f = true
        · -- join or respawn: the record for cid now exists
          by_cases hj : cid = id
          · subst hj
            rw [if_pos ⟨rfl, hlive, hcrt⟩]
            constructor
            · constructor
              · intro _; rw [hlive]
              · intro _
                cases f with
                | malformed => cases hcrt
                | msg m =>
                    cases m with
                    | join p =>
                        show hasPlayer (handleJoin st cid p).1.players cid = true
                        rw [handleJoin_hasPlayer]
                        simp
                    | update p => cases hcrt
                    | eat => cases hcrt
                    | hit t => cases hcrt
                    | attack h => cases hcrt
                    | respawn p =>
                        show hasPlayer (handleRespawn st cid p rx ry).1.players cid = true
                        rw [handleRespawn_hasPlayer]
                        simp
                    | other => cases hcrt
            · rw [hconns]
              constructor
              · intro _; rw [hlive]
              · intro _; exact hc
          · rw [if_neg (by
              intro hcon
              exact hj hcon.1)]
            constructor
            · -- id ≠ cid: record existence unchanged
              have : hasPlayer (handleFrame st cid f rx ry).1.players id =
                  hasPlayer st.players id := by
                cases f with
                | malformed => rfl
                | msg m =>
                    cases m with
                    | join p =>
                        show hasPlayer (handleJoin st cid p).1.players id = _
                        rw [handleJoin_hasPlayer]
                        have hne : ¬ id = cid := fun h => hj h.symm
                        simp [hne]
                    | update p => exact handleUpdate_hasPlayer st cid p id
                    | eat => exact handleEat_hasPlayer st cid id
                    | hit t => exact handleHit_hasPlayer st cid t id
                    | attack h => rfl
                    | respawn p =>
                        show hasPlayer (handleRespawn st cid p rx ry).1.players id = _
                        rw [handleRespawn_hasPlayer]
                        have hne : ¬ id = cid := fun h => hj h.symm
                        simp [hne]
                    | other => rfl
              rw [this]
              exact (hinv id).1
            · rw [hconns]
              exact (hinv id).2
        · -- not a creating frame: domain unchanged for every id
          rw [if_neg (by
            intro hcon
            exact hcrt hcon.2.2)]
          constructor
          · have : hasPlayer (handleFrame st cid f rx ry).1.players id =
                hasPlayer st.players id := by
              cases f with
              | malformed => rfl
              | msg m =>
                  cases m with
                  | join p => cases hcrt rfl
                  | update p => exact handleUpdate_hasPlayer st cid p id
                  | eat => exact handleEat_hasPlayer st cid id
                  | hit t => exact handleHit_hasPlayer st cid t id
                  | attack h => rfl
                  | respawn p => cases hcrt rfl
                  | other => rfl
            rw [this]
            exact (hinv id).1
          · rw [hconns]
            exact (hinv id).2
      · rw [if_neg hc]
        by_cases hj : cid = id
        · subst hj
          have hlive : (fl cid).1 = false := by
            cases hl : (fl cid).1 with
            | true => exact absurd ((hinv cid).2.2 hl) hc
            | false => rfl
          rw [if_neg (by
            intro hcon
            rw [hlive] at hcon
            cases hcon.2.1)]
          exact hinv cid
        · rw [if_neg (by
            intro hcon
            exact hj hcon.1)]
          exact hinv id

theorem flagsInv_run (db : Option ScoreTable) (acts : List Action) :
    flagsInv (run (initState db) acts) (flagsOf acts) := by
  rw [run]
  unfold flagsOf
  have main : ∀ (acts : List Action) (st : ServerState) (fl : String → Bool × Bool),
      flagsInv st fl →
      flagsInv (acts.foldl applyAction st)
        (fun id => acts.foldl (stepFlags id) (fl id)) := by
    intro acts
    induction acts with
    | nil => intro st fl h; exact h
    | cons a rest ih =>
        intro st fl h
        simp only [List.foldl_cons]
        exact ih _ _ (flagsInv_step h a)
  exact main acts (initState db) _ (flagsInv_init db)

theorem hpInv_run (db : Option ScoreTable) (acts : List Action) :
    hpInv (run (initState db) acts) := by
  have base : hpInv (initState db) := by
    intro id p h
    cases h
  rw [run]
  induction acts generalizing db with
  | nil => exact base
  | cons a rest ih =>
      rw [List.foldl_cons]
      have : ∀ st : ServerState, hpInv st → hpInv (rest.foldl applyAction st) := by
        clear ih
        induction rest with
        | nil => intro st h; exact h
        | cons b rb ihb =>
            intro st h
            rw [List.foldl_cons]
            exact ihb _ (hpInv_step h)
      exact this _ (hpInv_step base)

/-! ## Key uniqueness -/

theorem mem_keys_del {ps : PlayerMap} {id a : String}
    (h : a ∈ (delPlayer ps id).map Prod.fst) : a ∈ ps.map Prod.fst := by
  induction ps with
  | nil => simp [delPlayer] at h
  | cons e rest ih =>
      simp only [delPlayer] at h
      by_cases he : e.1 = id
      · rw [if_pos he] at h
        exact List.mem_cons_of_mem _ (ih h)
      · rw [if_neg he] at h
        simp only [List.map_cons] at h ⊢
        rcases List.mem_cons.1 h with h1 | h2
        · exact h1 ▸ List.mem_cons_self _ _
        · exact List.mem_cons_of_mem _ (ih h2)

theorem keysNodup_del (ps : PlayerMap) (id : String) :
    keysNodup ps → keysNodup (delPlayer ps id) := by
  induction ps with
  | nil => intro h; exact h
  | cons e rest ih =>
      intro h
      unfold keysNodup at h ⊢
      simp only [List.map_cons, List.nodup_cons] at h
      simp only [delPlayer]
      by_cases he : e.1 = id
      · rw [if_pos he]
        exact ih h.2
      · rw [if_neg he]
        simp only [List.map_cons, List.nodup_cons]
        exact ⟨fun hmem => h.1 (mem_keys_del hmem), ih h.2⟩

theorem keys_replace (ps : PlayerMap) (id : String) (p : Player) :
    (ps.map (fun e => if e.1 = id then (id, p) else e)).map Prod.fst =
      ps.map Prod.fst := by
  induction ps with
  | nil => rfl
  | cons e rest ih =>
      by_cases he : e.1 = id
      · simp [he, ih]
      · simp [he, ih]

theorem mem_keys_iff_any (ps : PlayerMap) (id : String) :
    id ∈ ps.map Prod.fst ↔ ps.any (fun e => decide (e.1 = id)) = true := by
  induction ps with
  | nil => simp
  | cons e rest ih =>
      simp only [List.map_cons, List.mem_cons, List.any_cons, Bool.or_eq_true,
        decide_eq_true_eq]
      constructor
      · rintro (h1 | h2)
        · exact .inl h1.symm
        · exact .inr (ih.1 h2)
      · rintro (h1 | h2)
        · exact .inl h1.symm
        · exact .inr (ih.2 h2)

theorem keysNodup_set (ps : PlayerMap) (id : String) (p : Player)
    (h : keysNodup ps) : keysNodup (setPlayer ps id p) := by
  unfold setPlayer
  by_cases hany : ps.any (fun e => decide (e.1 = id)) = true
  · rw [if_pos hany]
    unfold keysNodup at h ⊢
    rw [keys_replace]
    exact h
  · rw [if_neg hany]
    unfold keysNodup at h ⊢
    rw [List.map_append]
    refine List.Nodup.append h (List.nodup_singleton id) ?_
    intro a ha hb
    simp only [List.map_cons, List.map_nil, List.mem_singleton] at hb
    subst hb
    exact hany ((mem_keys_iff_any ps a).1 ha)

theorem keysNodup_applyAction {st : ServerState} (h : keysNodup st.players)
    (a : Action) : keysNodup (applyAction st a).players := by
  cases a with
  | connect id =>
      simp only [applyAction]
      by_cases hc : id ∈ st.conns
      · rw [if_pos hc]; exact h
      · rw [if_neg hc]; exact h
  | disconnect id =>
      simp only [applyAction]
      by_cases hc : id ∈ st.conns
      · rw [if_pos hc]; exact keysNodup_del st.players id h
      · rw [if_neg hc]; exact h
  | frame cid f rx ry =>
      simp only [applyAction]
      by_cases hc : cid ∈ st.conns
      · rw [if_pos hc]
        cases f with
        | malformed => exact h
        | msg m =>
            cases m with
            | join p => exact keysNodup_set st.players cid _ h
            | eat =>
                show keysNodup (handleEat st cid).1.players
                cases hg : getPlayer st.players cid with
                | none => rw [handleEat_none hg]; exact h
                | some p =>
                    rw [handleEat_some hg]
                    exact keysNodup_set st.players cid _ h
            | update p =>
                show keysNodup (handleUpdate st cid p).1.players
                cases hg : getPlayer st.players cid with
                | none => rw [handleUpdate_none hg]; exact h
                | some q =>
                    rw [handleUpdate_some hg]
                    exact keysNodup_set st.players cid _ h
            | hit t =>
                show keysNodup (handleHit st cid t).1.players
                apply handleHit_elim (fun r => keysNodup r.1.players) st cid t
                · exact h
                · intro _ _ _ _ _ _
                  exact keysNodup_set st.players _ _ h
                · intro _ _ _ _ _ _ _ _
                  exact keysNodup_set _ _ _ (keysNodup_set st.players _ _ h)
                · intro _ _ _ _ _ _ _
                  exact keysNodup_set st.players _ _ h
            | attack hd => exact h
            | respawn p => exact keysNodup_set st.players cid _ h
            | other => exact h
      · rw [if_neg hc]; exact h

theorem keysNodup_run (db : Option ScoreTable) (acts : List Action) :
    keysNodup (run (initState db) acts).players := by
  have base : keysNodup (initState db).players := List.nodup_nil
  rw [run]
  have main : ∀ (acts : List Action) (st : ServerState), keysNodup st.players →
      keysNodup (acts.foldl applyAction st).players := by
    intro acts
    induction acts with
    | nil => intro st h; exact h
    | cons a rest ih =>
        intro st h
        rw [List.foldl_cons]
        exact ih _ (keysNodup_applyAction h a)
  exact main acts _ base

/-! ## Hit sequences -/

theorem handleHit_target_hp {st : ServerState} {cid tid : String} {t : Player}
    (hne : tid ≠ "") (hg : getPlayer st.players tid = some t) :
    ∃ t', getPlayer (handleHit st cid (.str tid)).1.players tid = some t' ∧
      t'.hp = max 0 (t.hp - 1) := by
  cases hd : hitDied t.hp with
  | false =>
      rw [handleHit_not_died hne hg hd]
      refine ⟨hitUpdatedTarget t, ?_, hitUpdatedTarget_hp t⟩
      exact getPlayer_set_self st.players tid _
  | true =>
      cases ha : getPlayer (setPlayer st.players tid (hitUpdatedTarget t)) cid with
      | none =>
          rw [handleHit_died_no_attacker hne hg hd ha]
          exact ⟨hitUpdatedTarget t, getPlayer_set_self st.players tid _,
            hitUpdatedTarget_hp t⟩
      | some attacker =>
          rw [handleHit_died_attacker hne hg hd ha]
          by_cases hct : cid = tid
          · subst hct
            rw [getPlayer_set_self] at ha
            injection ha with ha
            refine ⟨{ attacker with score := attacker.score + 50 },
              getPlayer_set_self _ cid _, ?_⟩
            show attacker.hp = _
            rw [← ha]
            exact hitUpdatedTarget_hp t
          · refine ⟨hitUpdatedTarget t, ?_, hitUpdatedTarget_hp t⟩
            rw [getPlayer_set_ne _ cid tid _ (fun hc => hct hc.symm)]
            exact getPlayer_set_self st.players tid _

theorem handleHit_diedCount {st : ServerState} {cid tid : String} {t : Player}
    (hne : tid ≠ "") (hg : getPlayer st.players tid = some t) :
    diedCount (handleHit st cid (.str tid)).2 =
      if hitDied t.hp = true ∧ tid ∈ st.conns then 1 else 0 := by
  cases hd : hitDied t.hp with
  | false =>
      rw [handleHit_not_died hne hg hd]
      simp [diedCount, updatedEv]
  | true =>
      cases ha : getPlayer (setPlayer st.players tid (hitUpdatedTarget t)) cid with
      | none =>
          rw [handleHit_died_no_attacker hne hg hd ha]
          by_cases hm : tid ∈ st.conns <;>
            simp [diedCount, updatedEv, hm, List.countP_append]
      | some attacker =>
          rw [handleHit_died_attacker hne hg hd ha]
          by_cases hm : tid ∈ st.conns <;>
            simp [diedCount, updatedEv, hm, List.countP_append]

theorem hitSeq_spec (tid : String) (hne : tid ≠ "") :
    ∀ (attackers : List String) (st : ServerState) (t : Player),
      getPlayer st.players tid = some t → 0 ≤ t.hp → tid ∈ st.conns →
      (∃ t', getPlayer (hitSeq st tid attackers).1.players tid = some t' ∧
        t'.hp = max 0 (t.hp - attackers.length)) ∧
      ((hitSeq st tid attackers).2 =
        if 0 < t.hp ∧ t.hp ≤ (attackers.length : ℤ) then 1 else 0) := by
  intro attackers
  induction attackers with
  | nil =>
      intro st t hg hpos hconn
      constructor
      · refine ⟨t, hg, ?_⟩
        simp only [List.length_nil]
        omega
      · show 0 = _
        rw [if_neg]
        simp only [List.length_nil]
        omega
  | cons a rest ih =>
      intro st t hg hpos hconn
      obtain ⟨t', hg', hp'⟩ := @handleHit_target_hp st a tid t hne hg
      have hconn' : tid ∈ (handleHit st a (.str tid)).1.conns := by
        rw [(handleHit_frame st a (.str tid)).1]
        exact hconn
      have hpos' : 0 ≤ t'.hp := by omega
      obtain ⟨⟨t'', hg'', hp''⟩, hcount⟩ := ih _ t' hg' hpos' hconn'
      constructor
      · refine ⟨t'', ?_, ?_⟩
        · show getPlayer (hitSeq (handleHit st a (.str tid)).1 tid rest).1.players tid = _
          exact hg''
        · rw [hp'', hp']
          simp only [List.length_cons]
          push_cast
          omega
      · show diedCount (handleHit st a (.str tid)).2 +
          (hitSeq (handleHit st a (.str tid)).1 tid rest).2 = _
        rw [hcount, handleHit_diedCount hne hg]
        have hd1 : hitDied t.hp = true ↔ t.hp = 1 := hitDied_eq_one t.hp
        simp only [List.length_cons]
        by_cases h1 : t.hp = 1
        · rw [if_pos ⟨hd1.2 h1, hconn⟩, if_neg (by omega), if_pos (by push_cast; omega)]
        · rw [if_neg (fun hc => h1 (hd1.1 hc.1))]
          by_cases h2 : 0 < t.hp ∧ t.hp ≤ (rest.length : ℤ) + 1
          · rw [if_pos (by omega), if_pos (by omega)]
          · rw [if_neg (by omega), if_neg (by omega)]

theorem handleHit_dead_noop {st : ServerState} {cid tid : String} {t : Player}
    (hne : tid ≠ "") (hg : getPlayer st.players tid = some t) (h0 : t.hp = 0) :
    (∀ id, getPlayer (handleHit st cid (.str tid)).1.players id =
      getPlayer st.players id) ∧
    (handleHit st cid (.str tid)).1.conns = st.conns ∧
    (handleHit st cid (.str tid)).1.colorIndex = st.colorIndex ∧
    (handleHit st cid (.str tid)).1.db = st.db ∧
    diedCount (handleHit st cid (.str tid)).2 = 0 := by
  have hd : hitDied t.hp = false := by
    rw [Bool.eq_false_iff]
    intro hc
    have := (hitDied_eq_one t.hp).1 hc
    omega
  have hfix : hitUpdatedTarget t = t := by
    rw [hitUpdatedTarget_of_alive hd]
    have hmax : max 0 (t.hp - 1) = t.hp := by omega
    rw [hmax]
  rw [handleHit_not_died hne hg hd]
  refine ⟨?_, rfl, rfl, rfl, by simp [diedCount, updatedEv]⟩
  intro id
  show getPlayer (setPlayer st.players tid (hitUpdatedTarget t)) id = _
  rw [hfix, getPlayer_set]
  by_cases hid : id = tid
  · rw [if_pos hid, hid, hg]
  · rw [if_neg hid]

theorem handleHit_death_edge {st : ServerState} {cid tid : String}
    {t atk : Player}
    (hne : tid ≠ "") (hg : getPlayer st.players tid = some t) (h1 : t.hp = 1)
    (hct : cid ≠ tid) (hatk : getPlayer st.players cid = some atk) :
    getPlayer (handleHit st cid (.str tid)).1.players tid =
      some { t with hp := 0, stage := .tadpole, score := 0 } ∧
    getPlayer (handleHit st cid (.str tid)).1.players cid =
      some { atk with score := atk.score + 50 } := by
  have hd : hitDied t.hp = true := (hitDied_eq_one t.hp).2 h1
  have ha : getPlayer (setPlayer st.players tid (hitUpdatedTarget t)) cid =
      some atk := by
    rw [getPlayer_set_ne _ tid cid _ hct]
    exact hatk
  rw [handleHit_died_attacker hne hg hd ha]
  constructor
  · show getPlayer (setPlayer (setPlayer st.players tid (hitUpdatedTarget t)) cid _)
      tid = _
    rw [getPlayer_set_ne _ cid tid _ (fun hc => hct hc.symm),
      getPlayer_set_self, hitUpdatedTarget_of_died hd]
  · exact getPlayer_set_self _ cid _

/-! ## Eat sequences -/

theorem runEats_spec (cid : String) :
    ∀ (k : Nat) (st : ServerState) (p : Player),
      getPlayer st.players cid = some p →
      ∃ p', getPlayer (runEats st cid k).players cid = some p' ∧
        p'.score = p.score + 10 * (k : ℤ) ∧
        (0 < k →
          p'.stage = if (50:ℤ) ≤ p.score + 10 * (k : ℤ) then .frog else p.stage) ∧
        (k = 0 → p' = p) := by
  intro k
  induction k with
  | zero =>
      intro st p hg
      refine ⟨p, hg, by simp, ?_, fun _ => rfl⟩
      intro h
      exact absurd h (by omega)
  | succ k ih =>
      intro st p hg
      show ∃ p', getPlayer (runEats (handleEat st cid).1 cid k).players cid =
        some p' ∧ _
      rw [handleEat_some hg]
      obtain ⟨p', hg', hsc, hstage, hzero⟩ :=
        ih { st with players := setPlayer st.players cid (eatUpdated p) }
          (eatUpdated p) (getPlayer_set_self st.players cid _)
      have hscore1 : (eatUpdated p).score = p.score + 10 := rfl
      refine ⟨p', hg', ?_, ?_, by omega⟩
      · rw [hsc, hscore1]
        push_cast
        ring
      · intro _
        by_cases hk : 0 < k
        · rw [hstage hk, hscore1]
          by_cases hcond : (50:ℤ) ≤ p.score + 10 * ((k:ℤ) + 1)
          · rw [if_pos (by omega), if_pos (by omega)]
          · rw [if_neg (by omega), if_neg (by omega)]
            show (eatUpdated p).stage = p.stage
            unfold eatUpdated
            simp only
            rw [if_neg (by omega)]
        · have hk0 : k = 0 := by omega
          subst hk0
          rw [hzero rfl]
          show (eatUpdated p).stage = _
          unfold eatUpdated
          simp only
          by_cases hcond : (50:ℤ) ≤ p.score + 10
          · rw [if_pos hcond, if_pos (by push_cast; omega)]
          · rw [if_neg hcond, if_neg (by push_cast at hcond ⊢; omega)]

/-! ## Map rank computation -/

theorem jsFindIndex_sorted_desc (S : Int) :
    ∀ (m : List Int), List.Pairwise (fun a b : Int => b ≤ a) m →
      (∃ x ∈ m, x ≤ S) →
      jsFindIndex (fun v => decide (v ≤ S)) m =
        some (m.countP (fun v => decide (S < v))) := by
  intro m
  induction m with
  | nil =>
      intro _ hw
      rcases hw with ⟨x, hx, _⟩
      cases hx
  | cons a m' ih =>
      intro hs hw
      have hhead : ∀ b ∈ m', b ≤ a := fun b hb => (List.pairwise_cons.1 hs).1 b hb
      have htail : List.Pairwise (fun a b : Int => b ≤ a) m' :=
        (List.pairwise_cons.1 hs).2
      by_cases ha : a ≤ S
      · have hcount : (a :: m').countP (fun v => decide (S < v)) = 0 := by
          rw [List.countP_eq_zero]
          intro v hv
          simp only [decide_eq_true_eq]
          rcases List.mem_cons.1 hv with h1 | h2
          · omega
          · have := hhead v h2
            omega
        rw [hcount]
        unfold jsFindIndex
        rw [if_pos (by simpa using ha)]
      · have hrec : jsFindIndex (fun v => decide (v ≤ S)) m' =
            some (m'.countP (fun v => decide (S < v))) := by
          apply ih htail
          rcases hw with ⟨x, hx, hxle⟩
          rcases List.mem_cons.1 hx with h1 | h2
          · exact absurd (h1 ▸ hxle) ha
          · exact ⟨x, h2, hxle⟩
        unfold jsFindIndex
        rw [if_neg (by simpa using ha), hrec]
        rw [List.countP_cons]
        simp only [decide_eq_true_eq]
        rw [if_pos (by omega)]
        rfl

theorem mapRankOf_sortDesc (l : List Int) (S : Int) (hS : S ∈ l) :
    mapRankOf (sortDesc l) S = l.countP (fun v => decide (S < v)) + 1 := by
  have hperm := List.mergeSort_perm l (fun a b : Int => decide (b ≤ a))
  have hsorted : List.Pairwise (fun a b : Int => b ≤ a) (sortDesc l) := by
    have h := @List.sorted_mergeSort Int (fun a b : Int => decide (b ≤ a))
      (fun a b c h1 h2 => by
        simp only [decide_eq_true_eq] at h1 h2 ⊢
        omega)
      (fun a b => by
        simp only [Bool.or_eq_true, decide_eq_true_eq]
        omega) l
    exact h.imp (by
      intro a b hab
      simpa using hab)
  have hmem : S ∈ sortDesc l := hperm.mem_iff.2 hS
  have hfind := jsFindIndex_sorted_desc S (sortDesc l) hsorted ⟨S, hmem, le_refl S⟩
  unfold mapRankOf
  rw [hfind]
  simp only
  unfold sortDesc
  rw [List.Perm.countP_eq _ hperm]

/-! ## Persistence lemmas -/

theorem countP_replace_max (t : ScoreTable) (k : String) (S : Int) :
    (t.map (fun e => if e.1 = k then (e.1, max e.2 S) else e)).countP
      (fun e => decide (S < e.2)) = t.countP (fun e => decide (S < e.2)) := by
  induction t with
  | nil => rfl
  | cons e rest ih =>
      simp only [List.map_cons, List.countP_cons, ih]
      by_cases he : e.1 = k
      · rw [if_pos he]
        have : decide (S < ((e.1, max e.2 S) : String × Int).2) =
            decide (S < e.2) := by
          simp only [decide_eq_decide]
          omega
        rw [this]
      · rw [if_neg he]

theorem countP_upsertMax (t : ScoreTable) (k : String) (S : Int) :
    (upsertMax t k S).countP (fun e => decide (S < e.2)) =
      t.countP (fun e => decide (S < e.2)) := by
  unfold upsertMax
  by_cases hany : t.any (fun e => decide (e.1 = k)) = true
  · rw [if_pos hany]
    exact countP_replace_max t k S
  · rw [if_neg hany]
    rw [List.countP_append]
    simp

theorem getOverallRank_record (table : ScoreTable) (nick : String) (S : Int) :
    getOverallRank (recordHighScore (some table) nick S) S =
      some (table.countP (fun e => decide (S < e.2)) + 1) := by
  unfold recordHighScore getOverallRank
  simp only
  rw [← List.countP_eq_length_filter, countP_upsertMax]

/-! ## Update merge and delivery lemmas -/

theorem updateMerged_x_not_number {p : Player} {pl : UpdatePayload}
    (h : isNumberVal pl.x = false) : (updateMerged p pl).x = p.x := by
  unfold updateMerged
  cases hx : pl.x with
  | num n => rw [hx] at h; cases h
  | undef => rfl
  | null => rfl
  | str s => rfl
  | boolv b => rfl

theorem updateMerged_y_not_number {p : Player} {pl : UpdatePayload}
    (h : isNumberVal pl.y = false) : (updateMerged p pl).y = p.y := by
  unfold updateMerged
  cases hy : pl.y with
  | num n => rw [hy] at h; cases h
  | undef => rfl
  | null => rfl
  | str s => rfl
  | boolv b => rfl

theorem updateMerged_stage_bad {p : Player} {pl : UpdatePayload}
    (h1 : pl.stage ≠ .str "frog") (h2 : pl.stage ≠ .str "tadpole") :
    (updateMerged p pl).stage = p.stage := by
  unfold updateMerged
  simp only
  rw [if_neg h1, if_neg h2]

theorem deliverTo_allExcept_not_self (conns : List String) (cid : String) :
    cid ∉ deliverTo conns (.allExcept cid) := by
  intro h
  rcases List.mem_filter.1 h with ⟨_, hx⟩
  simp at hx

theorem deliverTo_allExcept_mem (conns : List String) (cid c : String)
    (hc : c ∈ conns) (hne : c ≠ cid) : c ∈ deliverTo conns (.allExcept cid) :=
  List.mem_filter.2 ⟨hc, by simp [hne]⟩

/-! ## Independence of gameplay from the persistence pool -/

theorem handleHit_db_players (st : ServerState) (d : Option ScoreTable)
    (cid : String) (v : JSVal) :
    (handleHit { st with db := d } cid v).1.players =
      (handleHit st cid v).1.players ∧
    (handleHit { st with db := d } cid v).1.conns =
      (handleHit st cid v).1.conns := by
  cases v with
  | str tid =>
      by_cases hne : tid = ""
      · subst hne
        unfold handleHit
        simp
      · cases hg : getPlayer st.players tid with
        | none =>
            rw [handleHit_no_target hne hg,
              @handleHit_no_target { st with db := d } cid tid hne hg]
            exact ⟨rfl, rfl⟩
        | some t =>
            cases hd : hitDied t.hp with
            | false =>
                rw [handleHit_not_died hne hg hd,
                  @handleHit_not_died { st with db := d } cid tid t hne hg hd]
                exact ⟨rfl, rfl⟩
            | true =>
                cases ha : getPlayer (setPlayer st.players tid (hitUpdatedTarget t))
                    cid with
                | none =>
                    rw [handleHit_died_no_attacker hne hg hd ha,
                      @handleHit_died_no_attacker { st with db := d } cid tid t
                        hne hg hd ha]
                    exact ⟨rfl, rfl⟩
                | some attacker =>
                    rw [handleHit_died_attacker hne hg hd ha,
                      @handleHit_died_attacker { st with db := d } cid tid t
                        attacker hne hg hd ha]
                    exact ⟨rfl, rfl⟩
  | undef => exact ⟨rfl, rfl⟩
  | null => exact ⟨rfl, rfl⟩
  | num n => exact ⟨rfl, rfl⟩
  | boolv b => exact ⟨rfl, rfl⟩

/-! ## The claims -/

/-- C1: for every target with health `H ≥ 0`, after a sequence of `k`
`hit` intents naming it the target's health is `max 0 (H - k)`; the
`died` side effects fire exactly once, at the hit taken with health 1
(the count of emitted `died` events over the sequence is 1 exactly when
`0 < H ≤ k`, and a single hit emits one exactly when the target's health
is 1); a hit on a target whose health is already 0 leaves every record,
the connection list and the pool unchanged and emits no `died` event;
and at the death edge the target is reset to health 0, stage Tadpole,
score 0 while the attacker is credited `+50`. -/
theorem c1_hit_sequence (st : ServerState) (tid : String)
    (attackers : List String) (t : Player) (hne : tid ≠ "")
    (hg : getPlayer st.players tid = some t) (hpos : 0 ≤ t.hp)
    (hconn : tid ∈ st.conns) :
    (∃ t', getPlayer (hitSeq st tid attackers).1.players tid = some t' ∧
      t'.hp = max 0 (t.hp - attackers.length)) ∧
    ((hitSeq st tid attackers).2 =
      if 0 < t.hp ∧ t.hp ≤ (attackers.length : ℤ) then 1 else 0) ∧
    (∀ (st₀ : ServerState) (cid : String) (t₀ : Player),
      getPlayer st₀.players tid = some t₀ →
      diedCount (handleHit st₀ cid (.str tid)).2 =
        if t₀.hp = 1 ∧ tid ∈ st₀.conns then 1 else 0) ∧
    (∀ (st₀ : ServerState) (cid : String) (t₀ : Player),
      getPlayer st₀.players tid = some t₀ → t₀.hp = 0 →
      (∀ id, getPlayer (handleHit st₀ cid (.str tid)).1.players id =
        getPlayer st₀.players id) ∧
      (handleHit st₀ cid (.str tid)).1.conns = st₀.conns ∧
      (handleHit st₀ cid (.str tid)).1.colorIndex = st₀.colorIndex ∧
      (handleHit st₀ cid (.str tid)).1.db = st₀.db ∧
      diedCount (handleHit st₀ cid (.str tid)).2 = 0) ∧
    (∀ (st₀ : ServerState) (cid : String) (t₀ atk : Player),
      getPlayer st₀.players tid = some t₀ → t₀.hp = 1 → cid ≠ tid →
      getPlayer st₀.players cid = some atk →
      getPlayer (handleHit st₀ cid (.str tid)).1.players tid =
        some { t₀ with hp := 0, stage := .tadpole, score := 0 } ∧
      getPlayer (handleHit st₀ cid (.str tid)).1.players cid =
        some { atk with score := atk.score + 50 }) := by
  obtain ⟨hmain, hcount⟩ := hitSeq_spec tid hne attackers st t hg hpos hconn
  refine ⟨hmain, hcount, ?_, ?_, ?_⟩
  · intro st₀ cid t₀ hg₀
    rw [handleHit_diedCount hne hg₀]
    simp only [hitDied_eq_one]
  · intro st₀ cid t₀ hg₀ h0
    exact handleHit_dead_noop hne hg₀ h0
  · intro st₀ cid t₀ atk hg₀ h1 hct hatk
    exact handleHit_death_edge hne hg₀ h1 hct hatk

/-- Witness for C1: a target with health 2 hit three times ends at
health 0, and exactly one `died` event is emitted. -/
theorem c1_hit_sequence_witness :
    (("t" : String) ≠ "" ∧ getPlayer wSt.players "t" = some wT ∧
      (0:ℤ) ≤ wT.hp ∧ ("t" : String) ∈ wSt.conns) ∧
    (∃ t', getPlayer (hitSeq wSt "t" ["a", "a", "a"]).1.players "t" = some t' ∧
      t'.hp = max 0 (wT.hp - (["a", "a", "a"] : List String).length)) ∧
    ((hitSeq wSt "t" ["a", "a", "a"]).2 =
      if 0 < wT.hp ∧ wT.hp ≤ ((["a", "a", "a"] : List String).length : ℤ)
      then 1 else 0) :=
  ⟨⟨by decide, by decide, by decide, by decide⟩,
    (c1_hit_sequence wSt "t" ["a", "a", "a"] wT (by decide) (by decide)
      (by decide) (by decide)).1,
    (c1_hit_sequence wSt "t" ["a", "a", "a"] wT (by decide) (by decide)
      (by decide) (by decide)).2.1⟩

/-- Counterexample for C2: an attacker at score 0 credited `+50` for a
kill reaches the promotion threshold 50 but keeps stage Tadpole — the
kill-credit path does not re-evaluate stage promotion. -/
theorem c2_kill_no_promotion_cex :
    getPlayer (handleHit wSt1 "a" (.str "t")).1.players "a" =
      some { wA with score := 50 } ∧
    (50:ℤ) ≤ ({ wA with score := 50 } : Player).score ∧
    ({ wA with score := 50 } : Player).stage ≠ Stage.frog :=
  ⟨by decide, by decide, by decide⟩

/-- C2 (amended): after `k` `eat` intents the eater's score is the
running sum of `+10` increments and its stage is Frog exactly when the
resulting score has reached 50; the kill credit adds `+50` to the
attacker's score but does not re-evaluate stage promotion (the stage is
left unchanged). -/
theorem c2_eat_promotion (st : ServerState) (cid : String) (k : Nat)
    (p : Player) (hg : getPlayer st.players cid = some p) :
    (∃ p', getPlayer (runEats st cid k).players cid = some p' ∧
      p'.score = p.score + 10 * (k : ℤ) ∧
      (0 < k → p'.stage =
        if (50:ℤ) ≤ p.score + 10 * (k : ℤ) then .frog else p.stage) ∧
      (k = 0 → p' = p)) ∧
    (∀ (st₀ : ServerState) (a tid : String) (t atk : Player),
      tid ≠ "" → getPlayer st₀.players tid = some t → t.hp = 1 → a ≠ tid →
      getPlayer st₀.players a = some atk →
      getPlayer (handleHit st₀ a (.str tid)).1.players a =
        some { atk with score := atk.score + 50 } ∧
      ({ atk with score := atk.score + 50 } : Player).stage = atk.stage) := by
  refine ⟨runEats_spec cid k st p hg, ?_⟩
  intro st₀ a tid t atk hne hg₀ h1 hat hatk
  exact ⟨(handleHit_death_edge hne hg₀ h1 hat hatk).2, rfl⟩

/-- Witness for C2 (amended): five `eat` intents take a fresh player from
score 0 to score 50 and stage Frog. -/
theorem c2_eat_promotion_witness :
    getPlayer wSt.players "a" = some wA ∧
    (∃ p', getPlayer (runEats wSt "a" 5).players "a" = some p' ∧
      p'.score = wA.score + 10 * ((5 : Nat) : ℤ) ∧
      (0 < 5 → p'.stage =
        if (50:ℤ) ≤ wA.score + 10 * ((5 : Nat) : ℤ) then .frog else wA.stage) ∧
      (5 = 0 → p' = wA)) :=
  ⟨by decide, (c2_eat_promotion wSt "a" 5 wA (by decide)).1⟩

/-- C3: a killing hit delivers to the connected victim a `died` event
whose map rank equals the count of currently-connected players (the
victim counted at the death score) with score strictly greater than the
death score, plus one; and whose overall rank equals the count of
persisted best-score records strictly greater than the death score, plus
one. -/
theorem c3_death_ranks (st : ServerState) (cid tid : String) (t : Player)
    (table : ScoreTable) (hne : tid ≠ "")
    (hg : getPlayer st.players tid = some t) (h1 : t.hp = 1)
    (hconn : tid ∈ st.conns) (hdb : st.db = some table) :
    ((ServerEvent.died t.score
        ((currentScoresOf st.players tid t.score).countP
          (fun v => decide (t.score < v)) + 1)
        (some (table.countP (fun e => decide (t.score < e.2)) + 1)),
      Recipients.one tid) ∈ (handleHit st cid (.str tid)).2) ∧
    getOverallRank (some table) t.score =
      some (table.countP (fun e => decide (t.score < e.2)) + 1) := by
  have hd : hitDied t.hp = true := (hitDied_eq_one t.hp).2 h1
  have hmem : t.score ∈ currentScoresOf st.players tid t.score := by
    have hm := getPlayer_mem hg
    unfold currentScoresOf
    refine List.mem_map.2 ⟨(tid, t), hm, ?_⟩
    simp
  have hrank :=
    mapRankOf_sortDesc (currentScoresOf st.players tid t.score) t.score hmem
  have hover : getOverallRank (recordHighScore st.db t.nickname t.score)
      t.score = some (table.countP (fun e => decide (t.score < e.2)) + 1) := by
    rw [hdb]
    exact getOverallRank_record table t.nickname t.score
  constructor
  · rw [← hrank, ← hover]
    cases ha : getPlayer (setPlayer st.players tid (hitUpdatedTarget t)) cid with
    | none =>
        rw [handleHit_died_no_attacker hne hg hd ha, if_pos hconn]
        simp
    | some attacker =>
        rw [handleHit_died_attacker hne hg hd ha, if_pos hconn]
        simp
  · rw [getOverallRank, List.countP_eq_length_filter]

/-- Witness for C3 at a concrete state: the victim dies at score 40 with
one connected player above it and one persisted record above it. -/
theorem c3_death_ranks_witness :
    (("t" : String) ≠ "" ∧ getPlayer wStDb.players "t" = some wT1 ∧
      wT1.hp = 1 ∧ ("t" : String) ∈ wStDb.conns ∧
      wStDb.db = some [("X", 100), ("Y", 10)]) ∧
    ((ServerEvent.died wT1.score
        ((currentScoresOf wStDb.players "t" wT1.score).countP
          (fun v => decide (wT1.score < v)) + 1)
        (some (([("X", 100), ("Y", 10)] : ScoreTable).countP
          (fun e => decide (wT1.score < e.2)) + 1)),
      Recipients.one "t") ∈ (handleHit wStDb "a" (.str "t")).2) :=
  ⟨⟨by decide, by decide, by decide, by decide, by decide⟩,
    (c3_death_ranks wStDb "a" "t" wT1 [("X", 100), ("Y", 10)] (by decide)
      (by decide) (by decide) (by decide) (by decide)).1⟩

/-- C4: a `respawn` from a session with a stored record yields health 5,
score 0, stage Tadpole, preserved colour and nickname; a client
coordinate is used only when it is a finite number, and any coordinate
that is absent, of the wrong type, or non-finite is replaced by a random
spawn point inside the arena bounds. -/
theorem c4_respawn (st : ServerState) (cid : String) (pl : RespawnPayload)
    (prev : Player) (rx ry : ℚ) (hg : getPlayer st.players cid = some prev)
    (hrx0 : 0 ≤ rx) (hrx1 : rx < 1) (hry0 : 0 ≤ ry) (hry1 : ry < 1) :
    ∃ p', getPlayer (handleRespawn st cid pl rx ry).1.players cid = some p' ∧
      p'.hp = 5 ∧ p'.score = 0 ∧ p'.stage = .tadpole ∧
      p'.color = prev.color ∧ p'.nickname = prev.nickname ∧
      (∀ q : ℚ, pl.x = .num (.fin q) → p'.x = .fin q) ∧
      (∀ q : ℚ, pl.y = .num (.fin q) → p'.y = .fin q) ∧
      (isFiniteNumberVal pl.x = false →
        ∃ qx : ℚ, p'.x = .fin qx ∧ 80 ≤ qx ∧ qx < 560) ∧
      (isFiniteNumberVal pl.y = false →
        ∃ qy : ℚ, p'.y = .fin qy ∧ 80 ≤ qy ∧ qy < 400) ∧
      (isFiniteNumberVal pl.x = false → isFiniteNumberVal pl.y = false →
        inArenaBounds p'.x p'.y) := by
  have hx480 : 0 ≤ rx * 480 ∧ rx * 480 < 480 := by
    constructor <;> nlinarith
  have hy320 : 0 ≤ ry * 320 ∧ ry * 320 < 320 := by
    constructor <;> nlinarith
  have hxrand : isFiniteNumberVal pl.x = false →
      (respawnPlayer (some prev) st.colorIndex pl rx ry).x =
        .fin (rx * 480 + 80) := by
    intro hfx
    unfold respawnPlayer
    cases hpx : pl.x with
    | num n =>
        cases n with
        | fin q => rw [hpx] at hfx; cases hfx
        | nan => rfl
        | inf => rfl
        | ninf => rfl
    | undef => rfl
    | null => rfl
    | str s => rfl
    | boolv b => rfl
  have hyrand : isFiniteNumberVal pl.y = false →
      (respawnPlayer (some prev) st.colorIndex pl rx ry).y =
        .fin (ry * 320 + 80) := by
    intro hfy
    unfold respawnPlayer
    cases hpy : pl.y with
    | num n =>
        cases n with
        | fin q => rw [hpy] at hfy; cases hfy
        | nan => rfl
        | inf => rfl
        | ninf => rfl
    | undef => rfl
    | null => rfl
    | str s => rfl
    | boolv b => rfl
  refine ⟨respawnPlayer (some prev) st.colorIndex pl rx ry, ?_, rfl, rfl, rfl,
    rfl, rfl, ?_, ?_, ?_, ?_, ?_⟩
  · unfold handleRespawn
    simp only [hg]
    exact getPlayer_set_self st.players cid _
  · intro q hq
    unfold respawnPlayer
    rw [hq]
  · intro q hq
    unfold respawnPlayer
    rw [hq]
  · intro hfx
    exact ⟨rx * 480 + 80, hxrand hfx, by linarith [hx480.1], by linarith [hx480.2]⟩
  · intro hfy
    exact ⟨ry * 320 + 80, hyrand hfy, by linarith [hy320.1], by linarith [hy320.2]⟩
  · intro hfx hfy
    exact ⟨rx * 480 + 80, ry * 320 + 80, hxrand hfx, hyrand hfy,
      by linarith [hx480.1], by linarith [hx480.2],
      by linarith [hy320.1], by linarith [hy320.2]⟩

/-- Witness for C4: a respawn with both coordinates absent, random draws
zero, lands the stored player at the spawn corner with reset stats. -/
theorem c4_respawn_witness :
    getPlayer wSt.players "a" = some wA ∧
    (∃ p', getPlayer (handleRespawn wSt "a" wResp 0 0).1.players "a" = some p' ∧
      p'.hp = 5 ∧ p'.score = 0 ∧ p'.stage = .tadpole ∧
      p'.color = wA.color ∧ p'.nickname = wA.nickname ∧
      (∀ q : ℚ, wResp.x = .num (.fin q) → p'.x = .fin q) ∧
      (∀ q : ℚ, wResp.y = .num (.fin q) → p'.y = .fin q) ∧
      (isFiniteNumberVal wResp.x = false →
        ∃ qx : ℚ, p'.x = .fin qx ∧ 80 ≤ qx ∧ qx < 560) ∧
      (isFiniteNumberVal wResp.y = false →
        ∃ qy : ℚ, p'.y = .fin qy ∧ 80 ≤ qy ∧ qy < 400) ∧
      (isFiniteNumberVal wResp.x = false → isFiniteNumberVal wResp.y = false →
        inArenaBounds p'.x p'.y)) :=
  ⟨by decide, c4_respawn wSt "a" wResp wA 0 0 (by decide) (le_refl 0)
    (by norm_num) (le_refl 0) (by norm_num)⟩

/-- Counterexample for C5: a `respawn` intent from a session that never
completed `join` creates a fresh Player record — the store does not stay
unchanged, and a record exists for a session that never joined. -/
theorem c5_respawn_creates_cex :
    getPlayer (run (initState none) [Action.connect "s"]).players "s" = none ∧
    getPlayer (run (initState none) wActsResp).players "s" =
      some (respawnPlayer none 0 wResp 0 0) :=
  ⟨rfl, rfl⟩

/-- C5 (amended): a Player record exists for an identifier exactly when
its connection is live and has completed a `join` or `respawn` intent
since it last connected; there is at most one record per identifier; and
`update` or `eat` from a session with no record leave the state
unchanged (while `respawn` creates a fresh record). -/
theorem c5_store_characterization (db : Option ScoreTable)
    (acts : List Action) (id : String) :
    (hasPlayer (run (initState db) acts).players id = true ↔
      flagsOf acts id = (true, true)) ∧
    keysNodup (run (initState db) acts).players ∧
    (∀ (st : ServerState) (cid : String) (pl : UpdatePayload),
      getPlayer st.players cid = none →
      handleUpdate st cid pl = (st, []) ∧ handleEat st cid = (st, [])) := by
  refine ⟨((flagsInv_run db acts) id).1, keysNodup_run db acts, ?_⟩
  intro st cid pl hnone
  exact ⟨handleUpdate_none hnone, handleEat_none hnone⟩

/-- Witness for C5 (amended): after the respawn-without-join trace, the
record for `"s"` exists and the flags agree; `update` and `eat` from an
empty store are no-ops. -/
theorem c5_store_characterization_witness :
    (hasPlayer (run (initState none) wActsResp).players "s" = true ↔
      flagsOf wActsResp "s" = (true, true)) ∧
    hasPlayer (run (initState none) wActsResp).players "s" = true ∧
    flagsOf wActsResp "s" = (true, true) ∧
    getPlayer (initState none).players "x" = none ∧
    handleUpdate (initState none) "x" wUpdAbc = (initState none, []) ∧
    handleEat (initState none) "x" = (initState none, []) :=
  ⟨(c5_store_characterization none wActsResp "s").1, by decide, by decide, rfl,
    ((c5_store_characterization none wActsResp "s").2.2 (initState none) "x"
      wUpdAbc rfl).1,
    ((c5_store_characterization none wActsResp "s").2.2 (initState none) "x"
      wUpdAbc rfl).2⟩

/-- C6: for an `update` from a joined session the handler writes exactly
the trust-merged record: health, score, colour and nickname unchanged;
`x`/`y` of the wrong type (in particular a string such as
`"not-a-number"`) keep the previous value; an unrecognized stage keeps
the previous stage; other players' records are untouched; and the
`updated` event is broadcast to every connection except the sender. -/
theorem c6_update_merge (st : ServerState) (cid : String) (pl : UpdatePayload)
    (prev : Player) (hg : getPlayer st.players cid = some prev) :
    handleUpdate st cid pl =
      ({ st with players := setPlayer st.players cid (updateMerged prev pl) },
       [(updatedEv cid (updateMerged prev pl), .allExcept cid)]) ∧
    (updateMerged prev pl).hp = prev.hp ∧
    (updateMerged prev pl).score = prev.score ∧
    (updateMerged prev pl).color = prev.color ∧
    (updateMerged prev pl).nickname = prev.nickname ∧
    (isNumberVal pl.x = false → (updateMerged prev pl).x = prev.x) ∧
    (isNumberVal pl.y = false → (updateMerged prev pl).y = prev.y) ∧
    (pl.stage ≠ .str "frog" → pl.stage ≠ .str "tadpole" →
      (updateMerged prev pl).stage = prev.stage) ∧
    (∀ s : String, pl.x = .str s → (updateMerged prev pl).x = prev.x) ∧
    (∀ id, id ≠ cid →
      getPlayer (handleUpdate st cid pl).1.players id =
        getPlayer st.players id) ∧
    cid ∉ deliverTo st.conns (.allExcept cid) ∧
    (∀ c ∈ st.conns, c ≠ cid → c ∈ deliverTo st.conns (.allExcept cid)) := by
  refine ⟨handleUpdate_some hg, rfl, rfl, rfl, rfl,
    fun h => updateMerged_x_not_number h, fun h => updateMerged_y_not_number h,
    fun h1 h2 => updateMerged_stage_bad h1 h2, ?_, ?_,
    deliverTo_allExcept_not_self st.conns cid,
    fun c hc hne => deliverTo_allExcept_mem st.conns cid c hc hne⟩
  · intro s hs
    apply updateMerged_x_not_number
    rw [hs]
    rfl
  · intro id hid
    rw [handleUpdate_some hg]
    exact getPlayer_set_ne st.players cid id _ hid

/-- Witness for C6: the `update{x: "not-a-number"}` payload leaves the
stored record's `x` unchanged, and the sender is excluded from
delivery. -/
theorem c6_update_merge_witness :
    getPlayer wSt.players "a" = some wA ∧
    (updateMerged wA wUpdAbc).x = wA.x ∧
    (updateMerged wA wUpdAbc).hp = wA.hp ∧
    ("a" : String) ∉ deliverTo wSt.conns (.allExcept "a") :=
  ⟨by decide,
    (c6_update_merge wSt "a" wUpdAbc wA (by decide)).2.2.2.2.2.2.2.2.1
      "not-a-number" rfl,
    (c6_update_merge wSt "a" wUpdAbc wA (by decide)).2.1,
    (c6_update_merge wSt "a" wUpdAbc wA (by decide)).2.2.2.2.2.2.2.2.2.2.1⟩

/-- C7: in every state reachable from the initial one, every stored
player's health is an integer in `[0, 5]`; `join` and `respawn` write
health 5, and a hit writes exactly `max 0 (hp - 1)`. -/
theorem c7_health_bounds (db : Option ScoreTable) (acts : List Action) :
    (∀ id p, getPlayer (run (initState db) acts).players id = some p →
      0 ≤ p.hp ∧ p.hp ≤ 5) ∧
    (∀ (ci : Nat) (pl : JoinPayload), (joinPlayer ci pl).hp = 5) ∧
    (∀ (prev : Option Player) (ci : Nat) (pl : RespawnPayload) (rx ry : ℚ),
      (respawnPlayer prev ci pl rx ry).hp = 5) ∧
    (∀ t : Player, (hitUpdatedTarget t).hp = max 0 (t.hp - 1)) :=
  ⟨hpInv_run db acts, fun _ _ => rfl, fun _ _ _ _ _ => rfl,
    fun t => hitUpdatedTarget_hp t⟩

/-- Witness for C7: the player created by the `join` trace has health in
bounds. -/
theorem c7_health_bounds_witness :
    getPlayer (run (initState none) wActs).players "a" =
      some (joinPlayer 0 wJoinDef) ∧
    (0 ≤ (joinPlayer 0 wJoinDef).hp ∧ (joinPlayer 0 wJoinDef).hp ≤ 5) :=
  ⟨by decide,
    (c7_health_bounds none wActs).1 "a" (joinPlayer 0 wJoinDef) (by decide)⟩

/-- C8: a frame rejected by `JSON.parse`, and a well-formed message with
an unrecognized `type`, are complete no-ops: the server state (store,
colour counter, connections, pool) is unchanged, no event is emitted,
and the connection is not dropped. -/
theorem c8_malformed_noop (st : ServerState) (cid : String) (rx ry : ℚ) :
    handleFrame st cid .malformed rx ry = (st, []) ∧
    handleFrame st cid (.msg .other) rx ry = (st, []) ∧
    applyAction st (.frame cid .malformed rx ry) = st ∧
    applyAction st (.frame cid (.msg .other) rx ry) = st := by
  refine ⟨rfl, rfl, ?_, ?_⟩
  · simp only [applyAction]
    by_cases hc : cid ∈ st.conns
    · rw [if_pos hc]
      rfl
    · rw [if_neg hc]
  · simp only [applyAction]
    by_cases hc : cid ∈ st.conns
    · rw [if_pos hc]
      rfl
    · rw [if_neg hc]

/-- C9: when the pool is unconfigured or unavailable, `recordHighScore`
is a skip and `getOverallRank` returns null; the hit handler's gameplay
state (players, connections) does not depend on the pool at all; and a
killing hit still delivers the `died` event to the victim, with a null
overall rank. -/
theorem c9_degraded_ranking (st : ServerState) (cid : String) (v : JSVal)
    (nick : String) (s : Int) :
    recordHighScore none nick s = none ∧
    getOverallRank none s = none ∧
    (∀ d : Option ScoreTable,
      (handleHit { st with db := d } cid v).1.players =
        (handleHit st cid v).1.players ∧
      (handleHit { st with db := d } cid v).1.conns =
        (handleHit st cid v).1.conns) ∧
    (∀ (tid : String) (t : Player), tid ≠ "" →
      getPlayer st.players tid = some t → t.hp = 1 → tid ∈ st.conns →
      st.db = none →
      ((ServerEvent.died t.score
          (mapRankOf (sortDesc (currentScoresOf st.players tid t.score))
            t.score) none,
        Recipients.one tid) ∈ (handleHit st cid (.str tid)).2)) := by
  refine ⟨rfl, rfl, fun d => handleHit_db_players st d cid v, ?_⟩
  intro tid t hne hg h1 hconn hdb
  have hd : hitDied t.hp = true := (hitDied_eq_one t.hp).2 h1
  have hnone : getOverallRank (recordHighScore st.db t.nickname t.score)
      t.score = none := by
    rw [hdb]
    rfl
  cases ha : getPlayer (setPlayer st.players tid (hitUpdatedTarget t)) cid with
  | none =>
      rw [handleHit_died_no_attacker hne hg hd ha, if_pos hconn, ← hnone]
      simp
  | some attacker =>
      rw [handleHit_died_attacker hne hg hd ha, if_pos hconn, ← hnone]
      simp

/-- Witness for C9: with `wSt1`'s pool unconfigured, the dying victim
still receives a `died` event carrying a null overall rank. -/
theorem c9_degraded_ranking_witness :
    recordHighScore none "N" 40 = none ∧
    getOverallRank none 40 = none ∧
    (("t" : String) ≠ "" ∧ getPlayer wSt1.players "t" = some wT1 ∧
      wT1.hp = 1 ∧ ("t" : String) ∈ wSt1.conns ∧ wSt1.db = none) ∧
    ((ServerEvent.died wT1.score
        (mapRankOf (sortDesc (currentScoresOf wSt1.players "t" wT1.score))
          wT1.score) none,
      Recipients.one "t") ∈ (handleHit wSt1 "a" (.str "t")).2) :=
  ⟨(c9_degraded_ranking wSt1 "a" (.str "t") "N" 40).1,
    (c9_degraded_ranking wSt1 "a" (.str "t") "N" 40).2.1,
    ⟨by decide, by decide, by decide, by decide, rfl⟩,
    (c9_degraded_ranking wSt1 "a" (.str "t") "N" 40).2.2.2 "t" wT1 (by decide)
      (by decide) (by decide) (by decide) rfl⟩

/-- C10: a `join` payload whose `x` is the non-numeric string `"abc"`
stores `NaN` as the x coordinate and broadcasts it in the `joined`
event; the defaults 240/320 apply only when the field is absent; and,
in contrast, an `update` with a string `x` keeps the previous value. -/
theorem c10_join_nan :
    (joinPlayer 0 wJoinAbc).x = .nan ∧
    getPlayer (handleJoin wSt "a" wJoinAbc).1.players "a" =
      some (joinPlayer wSt.colorIndex wJoinAbc) ∧
    ((ServerEvent.joined "a" (joinPlayer wSt.colorIndex wJoinAbc),
      Recipients.allExcept "a") ∈ (handleJoin wSt "a" wJoinAbc).2) ∧
    (joinPlayer wSt.colorIndex wJoinAbc).x = .nan ∧
    (joinPlayer 0 wJoinDef).x = .fin 240 ∧
    (joinPlayer 0 wJoinDef).y = .fin 320 ∧
    (updateMerged wA wUpdAbc).x = wA.x := by
  refine ⟨by decide, ?_, ?_, by decide, by decide, by decide, by decide⟩
  · unfold handleJoin
    exact getPlayer_set_self wSt.players "a" _
  · unfold handleJoin
    simp

end FrogGame
